import Mathlib

/-!
Verification development for the almight-js SDK core.

The definitions below are a shallow embedding of the TypeScript sources:

* `src/unnamed/part_000` - the web key/value storage layer
  (`BaseWebStorage`, `WebLocalStorage`, `WebWindowStore`);
* `src/packages/auth/src/delegate.ts` - `AuthenticationDelegate` and its
  `Web3AuthenticationDelegate` subclass;
* `src/packages/auth/src/types.ts` - the `AllowedQueryParams` enumeration;
* `src/packages/connector/src/adapter.ts` - `BaseChainAdapter`.

JavaScript values that flow through `JSON.stringify` / `JSON.parse` are
modelled by the inductive type `JVal` (numbers are modelled as integers;
floating point is outside the model).  Fallible operations (a thrown
TypeError, a JSON parse failure, a rejected promise) are modelled with
`Option` / `Except`.  Asynchronous code is sequenced in program order,
matching the single-threaded event-loop execution of the source.
-/

/-- A JSON-serializable JavaScript value: null, boolean, integer number,
string, array, or object (an insertion-ordered list of fields). -/
inductive JVal where
  | jnull : JVal
  | jbool : Bool → JVal
  | jnum : Int → JVal
  | jstr : String → JVal
  | jarr : List JVal → JVal
  | jobj : List (String × JVal) → JVal

/-- Association-list update with JavaScript object-assignment semantics:
an existing key keeps its position and gets the new value, a new key is
appended at the end. -/
def setKV {α : Type} : List (String × α) → String → α → List (String × α)
  | [], k, v => [(k, v)]
  | (k', v') :: rest, k, v =>
    if k' = k then (k, v) :: rest else (k', v') :: setKV rest k v

/-- Association-list removal (JavaScript `delete` / `removeItem`); the
list models a string-keyed map, so all entries of the key go away. -/
def eraseKV {α : Type} : List (String × α) → String → List (String × α)
  | [], _ => []
  | (k', v') :: rest, k =>
    if k' = k then eraseKV rest k else (k', v') :: eraseKV rest k

/-- Association-list lookup (JavaScript property read). -/
def lookupKV {α : Type} : List (String × α) → String → Option α
  | [], _ => none
  | (k', v') :: rest, k => if k' = k then some v' else lookupKV rest k

/-- Escaping of one character inside a JSON string literal, as performed
by `JSON.stringify` (the model escapes the quote and the backslash;
control-character escapes are outside the model). -/
def escChar (c : Char) : List Char :=
  if c = '"' then ['\\', '"']
  else if c = '\\' then ['\\', '\\']
  else [c]

/-- Escaping of a whole string body. -/
def escString : List Char → List Char
  | [] => []
  | c :: rest => escChar c ++ escString rest

/-- A serialized JSON string literal, quotes included. -/
def serStr (s : String) : List Char := '"' :: (escString s.data ++ ['"'])

/-- Decimal digit character for a digit value below ten. -/
def toDigitChar (d : Nat) : Char := Char.ofNat (48 + d)

/-- Decimal digit characters of a natural number, most significant first. -/
def natDigits (m : Nat) : List Char :=
  if m = 0 then ['0'] else (Nat.digits 10 m).reverse.map toDigitChar

/-- Serialized JSON number (integers only in the model). -/
def serNum (n : Int) : List Char :=
  if n < 0 then '-' :: natDigits n.natAbs else natDigits n.natAbs

mutual

/-- `JSON.stringify` on the modelled value universe, as a character list. -/
def serVal : JVal → List Char
  | .jnull => ['n', 'u', 'l', 'l']
  | .jbool true => ['t', 'r', 'u', 'e']
  | .jbool false => ['f', 'a', 'l', 's', 'e']
  | .jnum n => serNum n
  | .jstr s => serStr s
  | .jarr l => '[' :: (serArr l ++ [']'])
  | .jobj l => '\x7b' :: (serObj l ++ ['\x7d'])

/-- Comma-separated serialization of array elements. -/
def serArr : List JVal → List Char
  | [] => []
  | [v] => serVal v
  | v :: rest => serVal v ++ ',' :: serArr rest

/-- Comma-separated serialization of object fields. -/
def serObj : List (String × JVal) → List Char
  | [] => []
  | [(k, v)] => serStr k ++ ':' :: serVal v
  | (k, v) :: rest => serStr k ++ ':' :: serVal v ++ ',' :: serObj rest

end

/-- `JSON.stringify` as a Lean string: the `serialize` method of
`BaseWebStorage` (src/unnamed/part_000, line 80). -/
def jsonStringify (v : JVal) : String := String.mk (serVal v)

/-- Parser for a JSON string body: consumes characters up to the closing
quote, undoing the escapes produced by `escChar`. -/
def parseStrAux : List Char → Option (List Char × List Char)
  | [] => none
  | c :: rest =>
    if c = '"' then some ([], rest)
    else if c = '\\' then
      match rest with
      | [] => none
      | d :: rest2 =>
        if d = '"' ∨ d = '\\' then
          match parseStrAux rest2 with
          | some (s, r) => some (d :: s, r)
          | none => none
        else none
    else
      match parseStrAux rest with
      | some (s, r) => some (c :: s, r)
      | none => none

/-- Parser for a run of decimal digits, accumulating into `acc`; stops at
the first non-digit character. -/
def parseDigitsAux : List Char → Nat → Nat × List Char
  | [], acc => (acc, [])
  | c :: rest, acc =>
    if c.isDigit then parseDigitsAux rest (10 * acc + (c.toNat - 48))
    else (acc, c :: rest)

/-- Consumes an expected literal character sequence from the input. -/
def stripLit : List Char → List Char → Option (List Char)
  | [], rest => some rest
  | _ :: _, [] => none
  | l :: ls, c :: rest => if c = l then stripLit ls rest else none

mutual

/-- Fueled recursive-descent parser for the JSON fragment emitted by
`serVal`; models `JSON.parse` on that fragment, `none` models a thrown
`SyntaxError`. -/
def parseVal : Nat → List Char → Option (JVal × List Char)
  | 0, _ => none
  | Nat.succ fuel, cs =>
    match cs with
    | [] => none
    | c :: rest =>
      if c = 'n' then
        match stripLit ['u', 'l', 'l'] rest with
        | some r => some (.jnull, r)
        | none => none
      else if c = 't' then
        match stripLit ['r', 'u', 'e'] rest with
        | some r => some (.jbool true, r)
        | none => none
      else if c = 'f' then
        match stripLit ['a', 'l', 's', 'e'] rest with
        | some r => some (.jbool false, r)
        | none => none
      else if c = '"' then
        match parseStrAux rest with
        | some (s, r) => some (.jstr (String.mk s), r)
        | none => none
      else if c = '[' then
        if rest.head? = some ']' then some (.jarr [], rest.tail)
        else
          match parseElems fuel rest with
          | some (vs, r) => some (.jarr vs, r)
          | none => none
      else if c = '\x7b' then
        if rest.head? = some '\x7d' then some (.jobj [], rest.tail)
        else
          match parseFields fuel rest with
          | some (fs, r) => some (.jobj fs, r)
          | none => none
      else if c = '-' then
        match rest.head? with
        | none => none
        | some d =>
          if d.isDigit then
            let p := parseDigitsAux rest.tail (d.toNat - 48)
            some (.jnum (-(Int.ofNat p.1)), p.2)
          else none
      else if c.isDigit then
        let p := parseDigitsAux rest (c.toNat - 48)
        some (.jnum (Int.ofNat p.1), p.2)
      else none

/-- Fueled parser for a nonempty comma-separated element list closed by a
bracket. -/
def parseElems : Nat → List Char → Option (List JVal × List Char)
  | 0, _ => none
  | Nat.succ fuel, cs =>
    match parseVal fuel cs with
    | none => none
    | some (v, r) =>
      match r with
      | ',' :: r2 =>
        match parseElems fuel r2 with
        | some (vs, r3) => some (v :: vs, r3)
        | none => none
      | ']' :: r2 => some ([v], r2)
      | _ => none

/-- Fueled parser for a nonempty comma-separated field list closed by a
brace. -/
def parseFields : Nat → List Char → Option (List (String × JVal) × List Char)
  | 0, _ => none
  | Nat.succ fuel, cs =>
    match cs with
    | '"' :: cs1 =>
      match parseStrAux cs1 with
      | none => none
      | some (k, cs2) =>
        match cs2 with
        | ':' :: cs3 =>
          match parseVal fuel cs3 with
          | none => none
          | some (v, r) =>
            match r with
            | ',' :: r2 =>
              match parseFields fuel r2 with
              | some (fs, r3) => some ((String.mk k, v) :: fs, r3)
              | none => none
            | '\x7d' :: r2 => some ([(String.mk k, v)], r2)
            | _ => none
        | _ => none
    | _ => none

end

/-- `JSON.parse`, the `deserialize` method of `BaseWebStorage`
(src/unnamed/part_000, line 89): the whole input must parse as one value.
`none` models a thrown `SyntaxError`. -/
def jsonParse (s : String) : Option JVal :=
  match parseVal (s.data.length + 1) s.data with
  | some (v, []) => some v
  | _ => none

mutual

/-- Fuel measure of a value: each constructor and each list element
costs one unit. -/
def jsize : JVal → Nat
  | .jnull => 1
  | .jbool _ => 1
  | .jnum _ => 1
  | .jstr _ => 1
  | .jarr l => 1 + jsizeList l
  | .jobj l => 1 + jsizeFields l

/-- Fuel measure of an element list. -/
def jsizeList : List JVal → Nat
  | [] => 0
  | v :: rest => jsize v + 1 + jsizeList rest

/-- Fuel measure of a field list. -/
def jsizeFields : List (String × JVal) → Nat
  | [] => 0
  | (_, v) :: rest => jsize v + 1 + jsizeFields rest

end

theorem jsize_pos (v : JVal) : 1 ≤ jsize v := by
  cases v <;> simp [jsize]

/-- The input after a serialized number must not begin with a digit. -/
def noDigitHead (rest : List Char) : Prop :=
  ∀ c, rest.head? = some c → c.isDigit = false

theorem noDigitHead_nil : noDigitHead [] := by
  intro c h; simp at h

theorem noDigitHead_cons {c : Char} (h : c.isDigit = false) (t : List Char) :
    noDigitHead (c :: t) := by
  intro c' h'
  simp only [List.head?_cons, Option.some.injEq] at h'
  subst h'
  exact h

theorem digitChar_facts :
    ∀ d, d < 10 →
      (toDigitChar d).isDigit = true ∧ (toDigitChar d).toNat - 48 = d ∧
      toDigitChar d ≠ 'n' ∧ toDigitChar d ≠ 't' ∧ toDigitChar d ≠ 'f' ∧
      toDigitChar d ≠ '"' ∧ toDigitChar d ≠ '[' ∧ toDigitChar d ≠ '\x7b' ∧
      toDigitChar d ≠ '-' ∧ toDigitChar d ≠ ']' ∧ toDigitChar d ≠ '\x7d' ∧
      toDigitChar d ≠ ',' := by decide

theorem parseStrAux_escString (s : List Char) :
    ∀ rest, parseStrAux (escString s ++ '"' :: rest) = some (s, rest) := by
  induction s with
  | nil =>
    intro rest
    rw [escString, List.nil_append, parseStrAux.eq_def]
    simp
  | cons c s ih =>
    intro rest
    by_cases hq : c = '"'
    · subst hq
      rw [escString, escChar]
      simp only [if_pos rfl, List.cons_append, List.nil_append]
      rw [parseStrAux.eq_def]
      simp [ih rest]
    · by_cases hb : c = '\\'
      · subst hb
        rw [escString, escChar]
        simp only [if_neg (by decide : ¬('\\' : Char) = '"'), if_pos rfl,
          List.cons_append, List.nil_append]
        rw [parseStrAux.eq_def]
        simp [ih rest]
      · rw [escString, escChar, if_neg hq, if_neg hb]
        simp only [List.cons_append, List.nil_append]
        rw [parseStrAux.eq_def]
        simp [hq, hb, ih rest]

theorem parseDigitsAux_stop (rest : List Char) (acc : Nat) (h : noDigitHead rest) :
    parseDigitsAux rest acc = (acc, rest) := by
  cases rest with
  | nil => rfl
  | cons c t =>
    rw [parseDigitsAux.eq_def]
    simp [h c rfl]

theorem parseDigitsAux_run (ds : List Char) (hds : ∀ c ∈ ds, c.isDigit = true) :
    ∀ rest acc, noDigitHead rest →
      parseDigitsAux (ds ++ rest) acc =
        (ds.foldl (fun a c => 10 * a + (c.toNat - 48)) acc, rest) := by
  induction ds with
  | nil =>
    intro rest acc h
    simpa using parseDigitsAux_stop rest acc h
  | cons c t ih =>
    intro rest acc h
    rw [List.cons_append, parseDigitsAux.eq_def]
    simp only [hds c (by simp), if_pos]
    rw [ih (fun c hc => hds c (by simp [hc])) rest _ h]
    simp

theorem natDigits_mem (m : Nat) :
    ∀ c ∈ natDigits m, ∃ d, d < 10 ∧ c = toDigitChar d := by
  intro c hc
  rw [natDigits] at hc
  by_cases hm : m = 0
  · rw [if_pos hm] at hc
    simp at hc
    exact ⟨0, by omega, by rw [hc]; rfl⟩
  · rw [if_neg hm] at hc
    obtain ⟨d, hd, rfl⟩ := List.mem_map.mp hc
    exact ⟨d, Nat.digits_lt_base (by omega) (List.mem_reverse.mp hd), rfl⟩

theorem natDigits_all_digit (m : Nat) : ∀ c ∈ natDigits m, c.isDigit = true := by
  intro c hc
  obtain ⟨d, hd, rfl⟩ := natDigits_mem m c hc
  exact (digitChar_facts d hd).1

theorem natDigits_ne_nil (m : Nat) : natDigits m ≠ [] := by
  rw [natDigits]
  by_cases hm : m = 0
  · rw [if_pos hm]; simp
  · rw [if_neg hm]
    simp [Nat.digits_ne_nil_iff_ne_zero.mpr hm]

theorem foldl_digitChars (ds : List Nat) (h : ∀ d ∈ ds, d < 10) :
    ∀ acc, (ds.reverse.map toDigitChar).foldl (fun a c => 10 * a + (c.toNat - 48)) acc
      = acc * 10 ^ ds.length + Nat.ofDigits 10 ds := by
  induction ds with
  | nil => intro acc; simp [Nat.ofDigits]
  | cons d ds ih =>
    intro acc
    have hd : d < 10 := h d (by simp)
    have hds : ∀ e ∈ ds, e < 10 := fun e he => h e (by simp [he])
    rw [List.reverse_cons, List.map_append, List.foldl_append, ih hds acc]
    simp only [List.map_cons, List.map_nil, List.foldl_cons, List.foldl_nil,
      (digitChar_facts d hd).2, List.length_cons, Nat.ofDigits_cons]
    ring

theorem foldl_natDigits (m : Nat) :
    (natDigits m).foldl (fun a c => 10 * a + (c.toNat - 48)) 0 = m := by
  rw [natDigits]
  by_cases hm : m = 0
  · rw [if_pos hm]
    subst hm
    decide
  · rw [if_neg hm]
    rw [foldl_digitChars (Nat.digits 10 m) (fun d hd => Nat.digits_lt_base (by omega) hd) 0]
    simp [Nat.ofDigits_digits]

theorem digit_ne_special {c : Char} (h : c.isDigit = true) :
    c ≠ 'n' ∧ c ≠ 't' ∧ c ≠ 'f' ∧ c ≠ '"' ∧ c ≠ '[' ∧ c ≠ '\x7b' ∧
    c ≠ '-' ∧ c ≠ ']' ∧ c ≠ '\x7d' ∧ c ≠ ',' := by
  refine ⟨?_, ?_, ?_, ?_, ?_, ?_, ?_, ?_, ?_, ?_⟩ <;>
    (rintro rfl; exact absurd h (by decide))

theorem parseDigits_natDigits (m : Nat) (rest : List Char) (hnd : noDigitHead rest) :
    ∀ c cs, natDigits m = c :: cs → parseDigitsAux (cs ++ rest) (c.toNat - 48) = (m, rest) := by
  intro c cs hnat
  have hall : ∀ x ∈ cs, x.isDigit = true := by
    intro x hx
    exact natDigits_all_digit m x (by rw [hnat]; simp [hx])
  rw [parseDigitsAux_run cs hall rest _ hnd]
  have hfold := foldl_natDigits m
  rw [hnat, List.foldl_cons] at hfold
  simp only [Nat.mul_zero, Nat.zero_add] at hfold
  rw [hfold]

set_option maxRecDepth 8000 in
theorem parseVal_natDigits (fuel : Nat) (m : Nat) (rest : List Char) (hnd : noDigitHead rest) :
    parseVal (Nat.succ fuel) (natDigits m ++ rest) = some (.jnum (Int.ofNat m), rest) := by
  obtain ⟨c, cs, hnat⟩ := List.exists_cons_of_ne_nil (natDigits_ne_nil m)
  have hcd : c.isDigit = true := natDigits_all_digit m c (by rw [hnat]; simp)
  obtain ⟨h1, h2, h3, h4, h5, h6, h7, _, _, _⟩ := digit_ne_special hcd
  rw [hnat, List.cons_append, parseVal.eq_def]
  simp only []
  rw [if_neg h1, if_neg h2, if_neg h3, if_neg h4, if_neg h5, if_neg h6,
    if_neg h7, if_pos hcd]
  rw [parseDigits_natDigits m rest hnd c cs hnat]

theorem serArr_head (v : JVal) (t : List JVal) (hv : ∃ c cs, serVal v = c :: cs) :
    ∃ c cs, serArr (v :: t) = c :: cs ∧ (serVal v).head? = some c := by
  obtain ⟨c, cs, hc⟩ := hv
  cases t with
  | nil => exact ⟨c, cs, by rw [serArr, hc], by rw [hc]; rfl⟩
  | cons w t' =>
    refine ⟨c, cs ++ ',' :: serArr (w :: t'), ?_, by rw [hc]; rfl⟩
    rw [serArr.eq_def]
    simp only [hc, List.cons_append]

theorem serVal_head (v : JVal) :
    ∃ c cs, serVal v = c :: cs ∧ c ≠ ']' ∧ c ≠ '\x7d' := by
  cases v with
  | jnull => exact ⟨'n', _, rfl, by decide, by decide⟩
  | jbool b =>
    cases b with
    | true => exact ⟨'t', _, rfl, by decide, by decide⟩
    | false => exact ⟨'f', _, rfl, by decide, by decide⟩
  | jnum n =>
    simp only [serVal]
    by_cases hneg : n < 0
    · rw [serNum, if_pos hneg]
      exact ⟨'-', _, rfl, by decide, by decide⟩
    · rw [serNum, if_neg hneg]
      obtain ⟨c, cs, hnat⟩ := List.exists_cons_of_ne_nil (natDigits_ne_nil n.natAbs)
      have hcd : c.isDigit = true := natDigits_all_digit n.natAbs c (by rw [hnat]; simp)
      obtain ⟨_, _, _, _, _, _, _, h8, h9, _⟩ := digit_ne_special hcd
      exact ⟨c, cs, hnat, h8, h9⟩
  | jstr s => exact ⟨'"', _, rfl, by decide, by decide⟩
  | jarr l => exact ⟨'[', _, rfl, by decide, by decide⟩
  | jobj l => exact ⟨'\x7b', _, rfl, by decide, by decide⟩

theorem serObj_head (k : String) (v : JVal) (t : List (String × JVal)) :
    ∃ cs, serObj ((k, v) :: t) = '"' :: cs := by
  cases t with
  | nil =>
    exact ⟨escString k.data ++ ['"'] ++ ':' :: serVal v, by rw [serObj, serStr]; rfl⟩
  | cons f' t' =>
    refine ⟨escString k.data ++ ['"'] ++ ':' :: serVal v ++ ',' :: serObj (f' :: t'), ?_⟩
    rw [serObj.eq_def]
    simp only [serStr, List.cons_append, List.append_assoc]


set_option maxRecDepth 8000 in
theorem parse_ser_round : ∀ fuel : Nat,
    (∀ v rest, jsize v ≤ fuel → noDigitHead rest →
      parseVal fuel (serVal v ++ rest) = some (v, rest)) ∧
    (∀ l rest, l ≠ [] → jsizeList l ≤ fuel →
      parseElems fuel (serArr l ++ ']' :: rest) = some (l, rest)) ∧
    (∀ l rest, l ≠ [] → jsizeFields l ≤ fuel →
      parseFields fuel (serObj l ++ '\x7d' :: rest) = some (l, rest)) := by
  intro fuel
  induction fuel with
  | zero =>
    refine ⟨?_, ?_, ?_⟩
    · intro v rest hsz _
      exact absurd hsz (by have := jsize_pos v; omega)
    · intro l rest hne hsz
      cases l with
      | nil => exact absurd rfl hne
      | cons v t =>
        rw [jsizeList] at hsz
        exact absurd hsz (by have := jsize_pos v; omega)
    · intro l rest hne hsz
      cases l with
      | nil => exact absurd rfl hne
      | cons f t =>
        obtain ⟨k, v⟩ := f
        rw [jsizeFields] at hsz
        exact absurd hsz (by have := jsize_pos v; omega)
  | succ fuel ih =>
    obtain ⟨ihP, ihQ, ihR⟩ := ih
    refine ⟨?_, ?_, ?_⟩
    · -- one serialized value followed by a non-digit remainder
      intro v rest hsz hnd
      cases v with
      | jnull =>
        rw [serVal, parseVal.eq_def]
        simp [stripLit]
      | jbool b =>
        cases b with
        | true =>
          rw [serVal, parseVal.eq_def]
          simp [stripLit]
        | false =>
          rw [serVal, parseVal.eq_def]
          simp [stripLit]
      | jnum n =>
        cases n with
        | ofNat m =>
          simp only [serVal]
          rw [serNum, if_neg (by exact not_lt.mpr (Int.ofNat_nonneg m))]
          exact parseVal_natDigits fuel m rest hnd
        | negSucc k =>
          simp only [serVal]
          rw [serNum, if_pos (Int.negSucc_lt_zero k)]
          obtain ⟨c, cs, hnat⟩ :=
            List.exists_cons_of_ne_nil (natDigits_ne_nil (Int.negSucc k).natAbs)
          have hcd : c.isDigit = true :=
            natDigits_all_digit _ c (by rw [hnat]; simp)
          rw [List.cons_append, parseVal.eq_def]
          simp only []
          rw [if_neg (by decide), if_neg (by decide), if_neg (by decide),
            if_neg (by decide), if_neg (by decide), if_neg (by decide),
            if_pos trivial]
          rw [hnat, List.cons_append]
          simp only [List.head?_cons, List.tail_cons]
          rw [if_pos hcd, parseDigits_natDigits _ rest hnd c cs hnat]
          rfl
      | jstr s =>
        simp only [serVal, serStr]
        rw [parseVal.eq_def]
        simp only [List.cons_append, List.append_assoc, List.singleton_append]
        rw [if_neg (by decide), if_neg (by decide), if_neg (by decide),
          if_pos trivial]
        rw [parseStrAux_escString s.data ([] ++ rest)]
        simp
      | jarr l =>
        cases l with
        | nil =>
          rw [serVal, serArr, parseVal.eq_def]
          simp
        | cons v t =>
          obtain ⟨c, cs, hvc, hc1, _⟩ := serVal_head v
          obtain ⟨c', cs2, harr, hh⟩ := serArr_head v t ⟨c, cs, hvc⟩
          have hcc : c' = c := by
            rw [hvc] at hh
            simpa using hh.symm
          subst hcc
          simp only [serVal]
          rw [parseVal.eq_def]
          simp only [List.cons_append, List.append_assoc, List.singleton_append]
          rw [if_neg (by decide), if_neg (by decide), if_neg (by decide),
            if_neg (by decide), if_pos trivial]
          rw [harr, List.cons_append]
          simp only [List.head?_cons]
          rw [if_neg (by simp [hc1])]
          rw [← List.cons_append, ← harr]
          rw [ihQ (v :: t) ([] ++ rest) (by simp) (by rw [jsize] at hsz; omega)]
          simp
      | jobj l =>
        cases l with
        | nil =>
          rw [serVal, serObj, parseVal.eq_def]
          simp
        | cons f t =>
          obtain ⟨k, v⟩ := f
          obtain ⟨cs2, hobj⟩ := serObj_head k v t
          simp only [serVal]
          rw [parseVal.eq_def]
          simp only [List.cons_append, List.append_assoc, List.singleton_append]
          rw [if_neg (by decide), if_neg (by decide), if_neg (by decide),
            if_neg (by decide), if_neg (by decide), if_pos trivial]
          rw [hobj, List.cons_append]
          simp only [List.head?_cons]
          rw [if_neg (by decide)]
          rw [← List.cons_append, ← hobj]
          rw [ihR ((k, v) :: t) ([] ++ rest) (by simp) (by rw [jsize] at hsz; omega)]
          simp
    · -- a nonempty serialized element list closed by a bracket
      intro l rest hne hsz
      cases l with
      | nil => exact absurd rfl hne
      | cons v t =>
        rw [jsizeList] at hsz
        rw [parseElems.eq_def]
        simp only []
        cases t with
        | nil =>
          rw [serArr]
          rw [ihP v (']' :: rest) (by omega) (noDigitHead_cons (by decide) rest)]
          simp
        | cons w t' =>
          rw [serArr.eq_def]
          simp only [List.cons_append, List.append_assoc]
          rw [ihP v (',' :: (serArr (w :: t') ++ ']' :: rest)) (by omega)
            (noDigitHead_cons (by decide) _)]
          simp only []
          rw [ihQ (w :: t') rest (by simp) (by have := jsize_pos v; omega)]
    · -- a nonempty serialized field list closed by a brace
      intro l rest hne hsz
      cases l with
      | nil => exact absurd rfl hne
      | cons f t =>
        obtain ⟨k, v⟩ := f
        rw [jsizeFields] at hsz
        rw [parseFields.eq_def]
        simp only []
        cases t with
        | nil =>
          rw [serObj, serStr]
          simp only [List.cons_append, List.append_assoc, List.singleton_append,
            List.nil_append]
          rw [parseStrAux_escString k.data (':' :: (serVal v ++ '\x7d' :: rest))]
          simp only []
          rw [ihP v ('\x7d' :: rest) (by omega) (noDigitHead_cons (by decide) rest)]
          simp
        | cons f' t' =>
          rw [serObj.eq_def]
          simp only [serStr, List.cons_append, List.append_assoc, List.singleton_append,
            List.nil_append]
          rw [parseStrAux_escString k.data
            (':' :: (serVal v ++ ',' :: (serObj (f' :: t') ++ '\x7d' :: rest)))]
          simp only []
          rw [ihP v (',' :: (serObj (f' :: t') ++ '\x7d' :: rest)) (by omega)
            (noDigitHead_cons (by decide) _)]
          simp only []
          rw [ihR (f' :: t') rest (by simp) (by have := jsize_pos v; omega)]

theorem serNum_ne_nil (n : Int) : serNum n ≠ [] := by
  rw [serNum]
  by_cases hneg : n < 0
  · rw [if_pos hneg]; simp
  · rw [if_neg hneg]; exact natDigits_ne_nil n.natAbs

mutual

theorem jsize_le_len : (v : JVal) → jsize v ≤ (serVal v).length
  | .jnull => by simp [jsize, serVal]
  | .jbool b => by cases b <;> simp [jsize, serVal]
  | .jnum n => by
    have h := List.length_pos.mpr (serNum_ne_nil n)
    simp only [jsize, serVal]
    omega
  | .jstr s => by simp [jsize, serVal, serStr]
  | .jarr l => by
    have h := jsizeList_le_len l
    simp only [jsize, serVal, List.length_cons, List.length_append]
    omega
  | .jobj l => by
    have h := jsizeFields_le_len l
    simp only [jsize, serVal, List.length_cons, List.length_append]
    omega

theorem jsizeList_le_len : (l : List JVal) → jsizeList l ≤ (serArr l).length + 1
  | [] => by simp [jsizeList, serArr]
  | [v] => by
    have h := jsize_le_len v
    simp only [jsizeList, serArr]
    omega
  | v :: w :: t => by
    have h1 := jsize_le_len v
    have h2 := jsizeList_le_len (w :: t)
    rw [jsizeList, serArr.eq_def]
    simp only [List.length_append, List.length_cons]
    omega

theorem jsizeFields_le_len : (l : List (String × JVal)) → jsizeFields l ≤ (serObj l).length + 1
  | [] => by simp [jsizeFields, serObj]
  | [(k, v)] => by
    have h := jsize_le_len v
    simp only [jsizeFields, serObj, List.length_append, List.length_cons]
    omega
  | (k, v) :: f' :: t => by
    have h1 := jsize_le_len v
    have h2 := jsizeFields_le_len (f' :: t)
    rw [jsizeFields, serObj.eq_def]
    simp only [List.length_append, List.length_cons]
    omega

end

/-- `JSON.parse` is a left inverse of `JSON.stringify` on the modelled
value universe: `deserialize (serialize v) = v`. -/
theorem jsonParse_jsonStringify (v : JVal) : jsonParse (jsonStringify v) = some v := by
  rw [jsonStringify, jsonParse]
  have hlen : jsize v ≤ (serVal v).length + 1 :=
    le_trans (jsize_le_len v) (by omega)
  have h := (parse_ser_round ((serVal v).length + 1)).1 v [] hlen noDigitHead_nil
  rw [List.append_nil] at h
  show (match parseVal ((serVal v).length + 1) (serVal v) with
        | some (w, []) => some w
        | _ => none) = some v
  rw [h]

theorem lookupKV_setKV_self {α : Type} (l : List (String × α)) (k : String) (v : α) :
    lookupKV (setKV l k v) k = some v := by
  induction l with
  | nil => simp [setKV, lookupKV]
  | cons kv rest ih =>
    obtain ⟨k', v'⟩ := kv
    by_cases h : k' = k
    · simp [setKV, lookupKV, h]
    · simp [setKV, lookupKV, h, ih]

theorem lookupKV_setKV_ne {α : Type} (l : List (String × α)) (k k2 : String) (v : α)
    (h : k2 ≠ k) : lookupKV (setKV l k v) k2 = lookupKV l k2 := by
  have h' : ¬k = k2 := fun he => h he.symm
  induction l with
  | nil => simp [setKV, lookupKV, h']
  | cons kv rest ih =>
    obtain ⟨k', v'⟩ := kv
    by_cases hk : k' = k
    · subst hk
      simp [setKV, lookupKV, h']
    · by_cases h2 : k' = k2
      · simp [setKV, lookupKV, hk, h2, h]
      · simp [setKV, lookupKV, hk, h2, ih]

theorem lookupKV_eraseKV_self {α : Type} (l : List (String × α)) (k : String) :
    lookupKV (eraseKV l k) k = none := by
  induction l with
  | nil => simp [eraseKV, lookupKV]
  | cons kv rest ih =>
    obtain ⟨k', v'⟩ := kv
    by_cases h : k' = k
    · simp [eraseKV, h, ih]
    · simp [eraseKV, lookupKV, h, ih]

theorem lookupKV_eraseKV_ne {α : Type} (l : List (String × α)) (k k2 : String)
    (h : k2 ≠ k) : lookupKV (eraseKV l k) k2 = lookupKV l k2 := by
  induction l with
  | nil => simp [eraseKV]
  | cons kv rest ih =>
    obtain ⟨k', v'⟩ := kv
    by_cases hk : k' = k
    · have hk2 : ¬k' = k2 := by rw [hk]; exact fun he => h he.symm
      have hnk : ¬k = k2 := fun he => h he.symm
      simp [eraseKV, lookupKV, hk, hk2, hnk, ih]
    · by_cases h2 : k' = k2
      · simp [eraseKV, lookupKV, hk, h2, h]
      · simp [eraseKV, lookupKV, hk, h2, ih]

theorem eraseKV_setKV {α : Type} (l : List (String × α)) (k : String) (v : α) :
    eraseKV (setKV l k v) k = eraseKV l k := by
  induction l with
  | nil => simp [setKV, eraseKV]
  | cons kv rest ih =>
    obtain ⟨k', v'⟩ := kv
    by_cases h : k' = k
    · simp [setKV, eraseKV, h]
    · simp [setKV, eraseKV, h, ih]

/-- Model of `BaseWebStorage` (src/unnamed/part_000, lines 8-141).
`underlying` is the content of the browser storage area the instance
binds to (its cells hold the serialized strings); `attached` is whether
the `storage` field currently references it: `new` and `disconnect`
leave it null, `connect` binds it.  `pfx` models the `prefix` property
(left undefined by every caller in the repository). -/
structure BaseWebStorage where
  attached : Bool
  underlying : List (String × String)
  pfx : Option String

/-- `getPrefixedName` (line 93). -/
def BaseWebStorage.getPrefixedName (st : BaseWebStorage) (name : String) : String :=
  match st.pfx with
  | none => name
  | some p => p ++ "__" ++ name

/-- `isStorageDefined` (line 49): the `storage` field is not null. -/
def BaseWebStorage.isStorageDefined (st : BaseWebStorage) : Bool := st.attached

/-- `setItem` (line 97): serializes the value and stores the string under
the prefixed key.  `none` models a TypeError on a null `storage`. -/
def BaseWebStorage.setItem (st : BaseWebStorage) (key : String) (value : JVal) :
    Option BaseWebStorage :=
  if st.attached then
    some { st with
      underlying := setKV st.underlying (st.getPrefixedName key) (jsonStringify value) }
  else none

/-- `getItem` (line 100): returns null for an absent raw cell, otherwise
deserializes the raw string.  The outer `none` models a thrown error (a
TypeError on a null `storage`, or a `JSON.parse` failure); a present
result of `some .jnull` is the returned null. -/
def BaseWebStorage.getItem (st : BaseWebStorage) (key : String) : Option JVal :=
  if st.attached then
    match lookupKV st.underlying (st.getPrefixedName key) with
    | none => some .jnull
    | some raw => jsonParse raw
  else none

/-- `hasKey` (line 111): `(await getItem key) !== null`. -/
def BaseWebStorage.hasKey (st : BaseWebStorage) (key : String) : Option Bool :=
  match st.getItem key with
  | none => none
  | some .jnull => some false
  | some _ => some true

/-- `removeItem` (line 114). -/
def BaseWebStorage.removeItem (st : BaseWebStorage) (key : String) :
    Option BaseWebStorage :=
  if st.attached then
    some { st with underlying := eraseKV st.underlying (st.getPrefixedName key) }
  else none

/-- `clear` (line 118): empties the bound browser storage area. -/
def BaseWebStorage.clear (st : BaseWebStorage) : Option BaseWebStorage :=
  if st.attached then some { st with underlying := [] } else none

/-- The sentinel key of the `isConnected` ping round-trip (line 65). -/
def pingKey : String := "__ping__"

/-- The sentinel value of the `isConnected` ping round-trip (line 64). -/
def pingValue : String := "__test__ping__"

/-- `isConnected` (line 62): writes a sentinel, reads it back, compares
with strict equality against the sentinel string, removes it, and
returns the comparison; false when `storage` is not defined.  The state
after the ping round-trip is returned alongside. -/
def BaseWebStorage.isConnected (st : BaseWebStorage) : Bool × BaseWebStorage :=
  if st.isStorageDefined then
    match st.setItem pingKey (.jstr pingValue) with
    | none => (false, st)
    | some st1 =>
      let connected :=
        match st1.getItem pingKey with
        | some (.jstr s) => s == pingValue
        | _ => false
      match st1.removeItem pingKey with
      | none => (false, st1)
      | some st2 => (connected, st2)
  else (false, st)

/-- `WebLocalStorage.connect` / `WebSessionStorage.connect` (lines 155,
176): after the platform check (the model assumes a web platform) the
`storage` field is bound to the browser storage area; the default
`onConnectCallback` is a no-op. -/
def BaseWebStorage.connectLocal (st : BaseWebStorage) : BaseWebStorage :=
  { st with attached := true }

/-- `disconnect` (line 121): runs `beforeDisconnectCallback` (an
arbitrary store effect `cb`), then `clear()`, then nulls the `storage`
field.  `none` models the TypeError thrown by `clear` when the callback
left `storage` null. -/
def BaseWebStorage.disconnect (cb : BaseWebStorage → BaseWebStorage)
    (st : BaseWebStorage) : Option BaseWebStorage :=
  match (cb st).clear with
  | none => none
  | some st2 => some { st2 with attached := false }

/-- Every raw cell of the store deserializes; all cells written through
`setItem` have this shape. -/
def BaseWebStorage.wf (st : BaseWebStorage) : Bool :=
  st.underlying.all (fun kv => (jsonParse kv.2).isSome)

theorem getPrefixedName_none (st : BaseWebStorage) (h : st.pfx = none) (k : String) :
    st.getPrefixedName k = k := by
  rw [BaseWebStorage.getPrefixedName, h]

/-- Record update of the `underlying` field, kept as a named operation so
that rewriting stays first-order. -/
def BaseWebStorage.withUnder (st : BaseWebStorage) (u : List (String × String)) :
    BaseWebStorage :=
  { st with underlying := u }

theorem withUnder_attached (st : BaseWebStorage) (u : List (String × String)) :
    (st.withUnder u).attached = st.attached := rfl

theorem withUnder_underlying (st : BaseWebStorage) (u : List (String × String)) :
    (st.withUnder u).underlying = u := rfl

theorem withUnder_pfx (st : BaseWebStorage) (u : List (String × String)) :
    (st.withUnder u).pfx = st.pfx := rfl

theorem withUnder_getPrefixedName (st : BaseWebStorage) (u : List (String × String))
    (k : String) : (st.withUnder u).getPrefixedName k = st.getPrefixedName k := rfl

theorem withUnder_withUnder (st : BaseWebStorage) (u1 u2 : List (String × String)) :
    (st.withUnder u1).withUnder u2 = st.withUnder u2 := rfl

theorem setItem_eq (st : BaseWebStorage) (k : String) (v : JVal) (ha : st.attached = true) :
    st.setItem k v = some
      (st.withUnder (setKV st.underlying (st.getPrefixedName k) (jsonStringify v))) := by
  rw [BaseWebStorage.setItem, if_pos ha]
  rfl

theorem setItem_none (st : BaseWebStorage) (k : String) (v : JVal) (ha : st.attached = false) :
    st.setItem k v = none := by
  rw [BaseWebStorage.setItem, ha]
  simp

theorem removeItem_eq (st : BaseWebStorage) (k : String) (ha : st.attached = true) :
    st.removeItem k = some
      (st.withUnder (eraseKV st.underlying (st.getPrefixedName k))) := by
  rw [BaseWebStorage.removeItem, if_pos ha]
  rfl

theorem getItem_eq (st : BaseWebStorage) (k : String) (ha : st.attached = true) :
    st.getItem k = (match lookupKV st.underlying (st.getPrefixedName k) with
      | none => some .jnull
      | some raw => jsonParse raw) := by
  rw [BaseWebStorage.getItem, if_pos ha]

theorem getItem_setItem_self (st : BaseWebStorage) (k : String) (v : JVal)
    (st' : BaseWebStorage) (h : st.setItem k v = some st') :
    st'.getItem k = some v := by
  by_cases ha : st.attached
  · rw [setItem_eq st k v ha] at h
    obtain rfl := Option.some.inj h
    rw [getItem_eq _ k (by rw [withUnder_attached]; exact ha)]
    rw [withUnder_getPrefixedName, withUnder_underlying, lookupKV_setKV_self]
    exact jsonParse_jsonStringify v
  · rw [setItem_none st k v (by simpa using ha)] at h
    exact absurd h (by simp)

theorem getItem_setItem_ne (st : BaseWebStorage) (k k2 : String) (v : JVal)
    (st' : BaseWebStorage) (h : st.setItem k v = some st')
    (hne : st.getPrefixedName k2 ≠ st.getPrefixedName k) :
    st'.getItem k2 = st.getItem k2 := by
  by_cases ha : st.attached
  · rw [setItem_eq st k v ha] at h
    obtain rfl := Option.some.inj h
    rw [getItem_eq _ k2 (by rw [withUnder_attached]; exact ha), getItem_eq st k2 ha]
    rw [withUnder_getPrefixedName, withUnder_underlying, lookupKV_setKV_ne _ _ _ _ hne]
  · rw [setItem_none st k v (by simpa using ha)] at h
    exact absurd h (by simp)

theorem getItem_removeItem_self (st : BaseWebStorage) (k : String)
    (st' : BaseWebStorage) (h : st.removeItem k = some st') :
    st'.getItem k = some .jnull := by
  by_cases ha : st.attached
  · rw [removeItem_eq st k ha] at h
    obtain rfl := Option.some.inj h
    rw [getItem_eq _ k (by rw [withUnder_attached]; exact ha)]
    rw [withUnder_getPrefixedName, withUnder_underlying, lookupKV_eraseKV_self]
  · rw [BaseWebStorage.removeItem, if_neg ha] at h
    exact absurd h (by simp)

theorem getItem_removeItem_ne (st : BaseWebStorage) (k k2 : String)
    (st' : BaseWebStorage) (h : st.removeItem k = some st')
    (hne : st.getPrefixedName k2 ≠ st.getPrefixedName k) :
    st'.getItem k2 = st.getItem k2 := by
  by_cases ha : st.attached
  · rw [removeItem_eq st k ha] at h
    obtain rfl := Option.some.inj h
    rw [getItem_eq _ k2 (by rw [withUnder_attached]; exact ha), getItem_eq st k2 ha]
    rw [withUnder_getPrefixedName, withUnder_underlying, lookupKV_eraseKV_ne _ _ _ hne]
  · rw [BaseWebStorage.removeItem, if_neg ha] at h
    exact absurd h (by simp)

/-- The net effect of the `isConnected` ping round-trip: the result is
exactly whether `storage` is bound, and the only state change is the
removal of the sentinel key. -/
theorem isConnected_eq (st : BaseWebStorage) :
    st.isConnected =
      (st.attached,
        if st.attached then
          st.withUnder (eraseKV st.underlying (st.getPrefixedName pingKey))
        else st) := by
  rw [BaseWebStorage.isConnected, BaseWebStorage.isStorageDefined]
  by_cases ha : st.attached
  · rw [if_pos ha, if_pos ha, setItem_eq st pingKey (.jstr pingValue) ha]
    have hget := getItem_setItem_self st pingKey (.jstr pingValue) _
      (setItem_eq st pingKey (.jstr pingValue) ha)
    simp only []
    rw [hget]
    rw [removeItem_eq _ pingKey (by rw [withUnder_attached]; exact ha)]
    rw [withUnder_getPrefixedName]
    simp only [beq_self_eq_true]
    show (true, (st.withUnder _).withUnder _) = _
    rw [withUnder_underlying, eraseKV_setKV, withUnder_withUnder, ha]
  · rw [if_neg ha, if_neg ha]
    simp only [Bool.not_eq_true] at ha
    rw [ha]

/-- Model of `WebWindowStore` (src/unnamed/part_000, lines 192-247): the
in-memory variant.  Its `serialize` and `deserialize` overrides are the
identity, and `setItem` / `getItem` / `removeItem` access the dictionary
directly, without prefixing.  `cells = none` models a null `storage`. -/
structure WebWindowStore where
  cells : Option (List (String × JVal))

/-- `WebWindowStore.setItem` (line 236): stores the value itself. -/
def WebWindowStore.setItem (w : WebWindowStore) (key : String) (value : JVal) :
    Option WebWindowStore :=
  match w.cells with
  | none => none
  | some c => some ⟨some (setKV c key value)⟩

/-- `WebWindowStore.getItem` (line 240): returns the stored value itself.
The outer `none` models a TypeError on a null `storage`; the inner
Option is the JavaScript result, `none` standing for the undefined
returned on an absent key. -/
def WebWindowStore.getItem (w : WebWindowStore) (key : String) :
    Option (Option JVal) :=
  match w.cells with
  | none => none
  | some c => some (lookupKV c key)

theorem wws_getItem_setItem (w : WebWindowStore) (k : String) (v : JVal)
    (w' : WebWindowStore) (h : w.setItem k v = some w') :
    w'.getItem k = some (some v) := by
  rw [WebWindowStore.setItem] at h
  cases hc : w.cells with
  | none => rw [hc] at h; exact absurd h (by simp)
  | some c =>
    rw [hc] at h
    obtain rfl := Option.some.inj h
    rw [WebWindowStore.getItem]
    simp only []
    rw [lookupKV_setKV_self]

/-- `AllowedQueryParams` (src/packages/auth/src/types.ts, lines 13-34),
in declaration order. -/
def allowedQueryParams : List String :=
  ["project_identifier", "chainId", "public_key", "provider", "state",
   "verifiers", "code_challenge", "error", "error_code", "connector_type",
   "token", "respond_strategy", "origin_identifier", "target_origin",
   "code", "cause_event", "message_sign_required"]

/-- An identity resolver from the static catalog; the resolver code itself
(resolver.ts) is outside src, so a resolver is identified by which map
entry it is. -/
structure IdentityResolver where
  rid : String
deriving DecidableEq

/-- An origin-frame communicator from the static strategy catalog. -/
structure RespondFrame where
  fid : String
deriving DecidableEq

/-- The static class-level registries of `AuthenticationDelegate`
(delegate.ts, lines 49-51): `identityResolverMap` is initialized from
`IDENTITY_RESOLVERS` (resolver.ts, outside src) and `respondStrategyMap`
starts empty; both are mutable class dictionaries, so theorems quantify
over their contents. -/
structure StaticMaps where
  identityResolverMap : String → Option IdentityResolver
  respondStrategyMap : String → Option RespondFrame

mutual

/-- JavaScript property-key coercion (`obj[value]` stringifies the key):
used when a runtime value indexes the static maps. -/
def jsPropertyKey : JVal → String
  | .jnull => "null"
  | .jbool true => "true"
  | .jbool false => "false"
  | .jnum n => String.mk (serNum n)
  | .jstr s => s
  | .jarr l => jsKeyList l
  | .jobj _ => "[object Object]"

def jsKeyList : List JVal → String
  | [] => ""
  | [v] => jsPropertyKey v
  | v :: rest => jsPropertyKey v ++ "," ++ jsKeyList rest

end

/-- Failure modes of the delegate methods: a thrown TypeError, the
`StorageIsNotConnected` exception, the Error thrown when no project
identifier is stored, and the Error thrown by the unimplemented
`errorRedirect`. -/
inductive DErr where
  | typeError
  | storageIsNotConnected
  | projectIdentifierNotProvided
  | methodToBeImplemented
deriving DecidableEq

/-- Model of `AuthenticationDelegate` (delegate.ts).  The resolver
back-reference `identityResolver.delegate = this` is tracked by the flag
`resolverDelegateBound`. -/
structure AuthenticationDelegate where
  respondStrategy : Option JVal
  identityResolver : Option IdentityResolver
  resolverDelegateBound : Bool
  respondFrame : Option RespondFrame
  _state : List (String × JVal)
  storage : Option BaseWebStorage

/-- `frozenStateKey` (delegate.ts, line 34). -/
def frozenStateKey : String := "frozen_auth_delegate"

/-- `verificationExcludedStates` (delegate.ts, lines 39-42). -/
def verificationExcludedStates : List String := ["code", "error", "error_code"]

/-- Sequenced `setItem` calls of `setStates` (delegate.ts, lines 205-207). -/
def foldSetItems (st : BaseWebStorage) : List (String × JVal) → Option BaseWebStorage
  | [] => some st
  | (k, v) :: rest =>
    match st.setItem k v with
    | none => none
    | some st' => foldSetItems st' rest

/-- `setStates` (delegate.ts, line 203): when the store is connected,
persists every entry of the data record. -/
def AuthenticationDelegate.setStates (d : AuthenticationDelegate)
    (data : List (String × JVal)) : Except DErr AuthenticationDelegate :=
  match d.storage with
  | none => .error .typeError
  | some st =>
    let p := st.isConnected
    if p.1 then
      match foldSetItems p.2 data with
      | none => .error .typeError
      | some st2 => .ok { d with storage := some st2 }
    else .ok { d with storage := some p.2 }

/-- The `switch` of the `init` loop body (delegate.ts, lines 135-158):
`provider` binds the resolver from the static map when none is bound yet
(and then sets the resolver's back-reference), `respond_strategy` sets
the strategy when unset and binds the frame from the static map for the
current strategy when none is bound yet, and every other key is
persisted to storage.  The un-awaited `setItem` rejection is swallowed
(it can only be a TypeError raised before any state change). -/
def AuthenticationDelegate.routeKey (maps : StaticMaps) (d : AuthenticationDelegate)
    (kv : String × JVal) : AuthenticationDelegate :=
  let key := kv.1
  let value := kv.2
  if key = "provider" then
    let d' :=
      if d.identityResolver.isNone then
        { d with identityResolver := maps.identityResolverMap (jsPropertyKey value) }
      else d
    if d'.identityResolver.isSome then { d' with resolverDelegateBound := true } else d'
  else if key = "respond_strategy" then
    let d' :=
      if d.respondStrategy.isNone then { d with respondStrategy := some value } else d
    if d'.respondFrame.isNone then
      { d' with respondFrame :=
          match d'.respondStrategy with
          | none => maps.respondStrategyMap "undefined"
          | some rs => maps.respondStrategyMap (jsPropertyKey rs) }
    else d'
  else
    match d.storage with
    | none => d
    | some st =>
      match st.setItem key value with
      | none => d
      | some st' => { d with storage := some st' }

/-- One iteration of the `init` loop (delegate.ts, lines 133-161): route
by key, then write the key into `_state` and persist the whole state.
The `setStates` call is not awaited, so its rejection is swallowed. -/
def AuthenticationDelegate.initStep (maps : StaticMaps) (d : AuthenticationDelegate)
    (kv : String × JVal) : AuthenticationDelegate :=
  let d1 := AuthenticationDelegate.routeKey maps d kv
  let d2 := { d1 with _state := setKV d1._state kv.1 kv.2 }
  match d2.setStates d2._state with
  | .ok d3 => d3
  | .error _ => d2

/-- `init` (delegate.ts, line 132): the loop over `Object.entries(args)`. -/
def AuthenticationDelegate.init (maps : StaticMaps) (d : AuthenticationDelegate)
    (args : List (String × JVal)) : AuthenticationDelegate :=
  args.foldl (AuthenticationDelegate.initStep maps) d

/-- Sequenced `removeItem` calls of the `clean` loop (delegate.ts,
lines 85-87). -/
def foldRemoveItems (st : BaseWebStorage) : List String → Option BaseWebStorage
  | [] => some st
  | k :: rest =>
    match st.removeItem k with
    | none => none
    | some st' => foldRemoveItems st' rest

/-- `clean` (delegate.ts, line 83): when the store is connected, removes
every `AllowedQueryParams` key from storage. -/
def AuthenticationDelegate.clean (d : AuthenticationDelegate) :
    Except DErr AuthenticationDelegate :=
  match d.storage with
  | none => .error .typeError
  | some st =>
    let p := st.isConnected
    if p.1 then
      match foldRemoveItems p.2 allowedQueryParams with
      | none => .error .typeError
      | some st2 => .ok { d with storage := some st2 }
    else .ok { d with storage := some p.2 }

/-- `close` (delegate.ts, line 91): `clean`, then removal of the legacy
`walletconnect` key when present, then `respondFrame.close()` when a
frame is bound.  The boolean reports whether the communicator close was
invoked. -/
def AuthenticationDelegate.close (d : AuthenticationDelegate) :
    Except DErr (AuthenticationDelegate × Bool) :=
  match d.clean with
  | .error e => .error e
  | .ok d1 =>
    match d1.storage with
    | none => .error .typeError
    | some st =>
      match st.hasKey "walletconnect" with
      | none => .error .typeError
      | some true =>
        match st.removeItem "walletconnect" with
        | none => .error .typeError
        | some st' => .ok ({ d1 with storage := some st' }, d1.respondFrame.isSome)
      | some false => .ok (d1, d1.respondFrame.isSome)

/-- The loop body of `verifyStates` (delegate.ts, lines 216-220): an entry
fails when its key is not excluded and is either absent from storage or
stored with a different JSON serialization. -/
def verifyLoop (st : BaseWebStorage) (excl : List String) :
    List (String × JVal) → Option Bool
  | [] => some true
  | (k, v) :: rest =>
    if excl.contains k then verifyLoop st excl rest
    else
      match st.hasKey k with
      | none => none
      | some false => some false
      | some true =>
        match st.getItem k with
        | none => none
        | some sv =>
          if jsonStringify sv = jsonStringify v then verifyLoop st excl rest
          else some false

/-- `verifyStates` (delegate.ts, line 214). -/
def AuthenticationDelegate.verifyStates (d : AuthenticationDelegate)
    (states : List (String × JVal)) : Except DErr (Bool × AuthenticationDelegate) :=
  match d.storage with
  | none => .error .typeError
  | some st =>
    let p := st.isConnected
    if p.1 then
      match verifyLoop p.2 verificationExcludedStates states with
      | none => .error .typeError
      | some b => .ok (b, { d with storage := some p.2 })
    else .ok (false, { d with storage := some p.2 })

/-- `getState` (delegate.ts, line 278): throws `StorageIsNotConnected`
when the store is not connected, otherwise reads the key. -/
def AuthenticationDelegate.getState (d : AuthenticationDelegate) (key : String) :
    Except DErr (JVal × AuthenticationDelegate) :=
  match d.storage with
  | none => .error .typeError
  | some st =>
    let p := st.isConnected
    if p.1 then
      match p.2.getItem key with
      | none => .error .typeError
      | some v => .ok (v, { d with storage := some p.2 })
    else .error .storageIsNotConnected

/-- `freeze` (delegate.ts, line 273): persists the whole `_state` map as
one object under the frozen-state key. -/
def AuthenticationDelegate.freeze (d : AuthenticationDelegate) :
    Except DErr AuthenticationDelegate :=
  d.setStates [(frozenStateKey, .jobj d._state)]

/-- The optional constructor argument (delegate.ts, lines 57-61). -/
structure DelegateOptions where
  storage : Option BaseWebStorage
  respondFrame : Option RespondFrame
  respondStrategy : Option JVal

/-- The `AuthenticationDelegate` constructor (delegate.ts, lines 57-80).
With no options the `storage` field is never assigned, and the
fire-and-forget `connect` call inside the constructor rejects with a
TypeError that surfaces only as an unhandled promise rejection.  With
options, a missing storage defaults to a fresh `WebLocalStorage` bound
to the browser area `localEnv`, and the connect call attaches it. -/
def AuthenticationDelegate.construct (options : Option DelegateOptions)
    (localEnv : List (String × String)) : AuthenticationDelegate :=
  match options with
  | none =>
    { respondStrategy := none, identityResolver := none,
      resolverDelegateBound := false, respondFrame := none,
      _state := [], storage := none }
  | some o =>
    let st0 := o.storage.getD { attached := false, underlying := localEnv, pfx := none }
    { respondStrategy := o.respondStrategy, identityResolver := none,
      resolverDelegateBound := false, respondFrame := o.respondFrame,
      _state := [], storage := some st0.connectLocal }

/-- `Object.entries` on a JavaScript value: fields of an object, indexed
characters of a string, indexed elements of an array, empty for other
primitives, and a TypeError on null. -/
def jsObjectEntries : JVal → Except DErr (List (String × JVal))
  | .jobj fields => .ok fields
  | .jnull => .error .typeError
  | .jstr s => .ok (s.data.enum.map (fun p => (toString p.1, JVal.jstr (String.mk [p.2]))))
  | .jarr l => .ok (l.enum.map (fun p => (toString p.1, p.2)))
  | .jbool _ => .ok []
  | .jnum _ => .ok []

/-- `fromFrozenState` (delegate.ts, line 284): constructs a delegate with
`new AuthenticationDelegate()` (no options), reads the frozen state, and
replays it through `init`. -/
def AuthenticationDelegate.fromFrozenState (maps : StaticMaps) :
    Except DErr AuthenticationDelegate :=
  let d := AuthenticationDelegate.construct none []
  match d.getState frozenStateKey with
  | .error e => .error e
  | .ok (v, d1) =>
    match jsObjectEntries v with
    | .error e => .error e
    | .ok entries => .ok (AuthenticationDelegate.init maps d1 entries)

/-- The observable outcome of `handleUserRegistration` when the guard
passes: a POST to the backend with the stored project identifier, the
optional stored user token, and whatever the bound resolver supplies
(resolver.ts is outside src, so the payload carries the resolver). -/
inductive RegOutcome where
  | backendCall (projectIdent : JVal) (userIdent : Option JVal)
      (resolver : Option IdentityResolver)

/-- `handleUserRegistration` (delegate.ts, lines 178-190): fails when no
project identifier is stored, otherwise gathers tokens and posts. -/
def AuthenticationDelegate.handleUserRegistration (d : AuthenticationDelegate) :
    Except DErr RegOutcome :=
  match d.storage with
  | none => .error .typeError
  | some st =>
    match st.hasKey "project_identifier" with
    | none => .error .typeError
    | some false => .error .projectIdentifierNotProvided
    | some true =>
      match st.getItem "project_identifier" with
      | none => .error .typeError
      | some pid =>
        match st.getItem "token" with
        | none => .error .typeError
        | some userIdent =>
          .ok (.backendCall pid
            (match userIdent with
             | .jnull => none
             | v => some v)
            d.identityResolver)

/-- The loop of `Web3AuthenticationDelegate.getConfigurationData`
(delegate.ts, lines 300-309): collects the stored non-null values of the
query-parameter keys. -/
def collectConfiguration (st : BaseWebStorage) :
    List String → Option (List (String × JVal))
  | [] => some []
  | q :: rest =>
    match st.getItem q with
    | none => none
    | some v =>
      match collectConfiguration st rest with
      | none => none
      | some data =>
        match v with
        | .jnull => some data
        | v' => some ((q, v') :: data)

/-- `Web3AuthenticationDelegate.getConfigurationData` (delegate.ts,
line 300). -/
def getConfigurationDataWeb3 (st : BaseWebStorage) :
    Option (List (String × JVal)) :=
  collectConfiguration st allowedQueryParams

/-- The tail of `captureData` after project verification (delegate.ts,
lines 264-269): `init(query)`, then hand over to the resolver when one
is bound.  The boolean reports whether `identityResolver.captureUri` was
invoked (the resolver code is outside src). -/
def AuthenticationDelegate.afterVerify (maps : StaticMaps)
    (d : AuthenticationDelegate) (query : List (String × JVal)) :
    Except DErr (AuthenticationDelegate × Bool) :=
  let d1 := AuthenticationDelegate.init maps d query
  match d1.identityResolver with
  | some _ => .ok ({ d1 with resolverDelegateBound := true }, true)
  | none => .ok (d1, false)

/-- `captureData` of the `Web3AuthenticationDelegate` (delegate.ts,
lines 242-270): reads the configuration, drops the legacy walletconnect
key, and when a project identifier is present verifies it against the
backend.  `verifyProjectResult` is the backend response of
`verifyProject`: `some b` for a reply with `is_verified = b`, `none` for
a network failure.  On a failed or thrown verification the catch block
calls `errorRedirect`, which itself throws the Error
`Method to be implemented`. -/
def AuthenticationDelegate.captureData (maps : StaticMaps)
    (verifyProjectResult : Option Bool) (d : AuthenticationDelegate) :
    Except DErr (AuthenticationDelegate × Bool) :=
  match d.storage with
  | none => .error .typeError
  | some st =>
    match getConfigurationDataWeb3 st with
    | none => .error .typeError
    | some query =>
      match st.hasKey "walletconnect" with
      | none => .error .typeError
      | some wc =>
        match (if wc then st.removeItem "walletconnect" else some st) with
        | none => .error .typeError
        | some st1 =>
          match lookupKV query "project_identifier" with
          | some pidVal =>
            if verifyProjectResult = some true then
              match st1.setItem "project_identifier" pidVal with
              | none =>
                AuthenticationDelegate.afterVerify maps { d with storage := some st1 } query
              | some st2 =>
                AuthenticationDelegate.afterVerify maps { d with storage := some st2 } query
            else .error .methodToBeImplemented
          | none =>
            AuthenticationDelegate.afterVerify maps { d with storage := some st1 } query

/-- Model of `BaseProviderChannel` at the adapter boundary (channel.ts is
outside src): only the behavior the adapter observes is modelled, as
result fields. -/
structure BaseProviderChannel where
  connected : Bool
  checkConnectionResult : Bool
  requestResult : JVal
  sessionValid : Bool
  sessionPayload : JVal

/-- Errors at the adapter boundary: the `ChannelIsNotDefined` exception
(with the constructor name it carries) and the TypeError raised by a
property access on an undefined channel. -/
inductive AdapterErr where
  | channelIsNotDefined (name : String)
  | typeErrorUndefinedChannel
deriving DecidableEq

/-- A protocol definition bound to the adapter; `bindAdapter` gives it a
back-reference, tracked by `adapterBound`. -/
structure ProtocolDefination where
  pid : String
  adapterBound : Bool

/-- Model of `BaseChainAdapter` (adapter.ts, lines 28-123). -/
structure BaseChainAdapter where
  _channel : Option BaseProviderChannel
  protocol : Option ProtocolDefination
  onConnectBound : Bool
  className : String

/-- `checkChannel` (adapter.ts, line 105). -/
def BaseChainAdapter.checkChannel (a : BaseChainAdapter) : Except AdapterErr Unit :=
  if a._channel.isNone then .error (.channelIsNotDefined a.className) else .ok ()

/-- The constructor argument (adapter.ts, lines 23-27); `channel` may
still be undefined at runtime. -/
structure ChainAdapterOptions where
  channel : Option BaseProviderChannel
  protocolDefination : Option ProtocolDefination
  onConnect : Bool

/-- The `BaseChainAdapter` constructor (adapter.ts, lines 78-86): assigns
the channel, binds the protocol when given, stores the callback, then
runs `checkChannel` (throwing when the channel is undefined) and finally
`bindChannelDelegations` (a channel-side effect outside this model). -/
def BaseChainAdapter.construct (options : ChainAdapterOptions) :
    Except AdapterErr BaseChainAdapter :=
  let a : BaseChainAdapter :=
    { _channel := options.channel,
      protocol := options.protocolDefination.map (fun p => { p with adapterBound := true }),
      onConnectBound := options.onConnect,
      className := "BaseChainAdapter" }
  match a.checkChannel with
  | .error e => .error e
  | .ok _ => .ok a

/-- `connect` (adapter.ts, line 98): `checkChannel`, then the transport
connect (an effect of the external channel). -/
def BaseChainAdapter.connect (a : BaseChainAdapter) : Except AdapterErr Unit :=
  match a.checkChannel with
  | .error e => .error e
  | .ok _ => .ok ()

/-- `request` (adapter.ts, line 109): `checkChannel`, then the forwarded
RPC result. -/
def BaseChainAdapter.request (a : BaseChainAdapter) : Except AdapterErr JVal :=
  match a.checkChannel with
  | .error e => .error e
  | .ok _ =>
    match a._channel with
    | some ch => .ok ch.requestResult
    | none => .error .typeErrorUndefinedChannel

/-- `checkSession` (adapter.ts, line 93): `checkChannel`, then the session
validity and payload reported by the channel. -/
def BaseChainAdapter.checkSession (a : BaseChainAdapter) :
    Except AdapterErr (Bool × JVal) :=
  match a.checkChannel with
  | .error e => .error e
  | .ok _ =>
    match a._channel with
    | some ch => .ok (ch.sessionValid, ch.sessionPayload)
    | none => .error .typeErrorUndefinedChannel

/-- `checkConnection` (adapter.ts, lines 115-117): calls
`this.channel.checkConnection(this)` directly, without `checkChannel`;
an undefined channel raises a TypeError. -/
def BaseChainAdapter.checkConnection (a : BaseChainAdapter) :
    Except AdapterErr Bool :=
  match a._channel with
  | none => .error .typeErrorUndefinedChannel
  | some ch => .ok ch.checkConnectionResult

/-- `on` (adapter.ts, lines 119-122): explicit undefined check, then the
subscription (an effect of the external channel). -/
def BaseChainAdapter.on (a : BaseChainAdapter) (event : String) :
    Except AdapterErr Unit :=
  if a._channel.isNone then .error (.channelIsNotDefined a.className)
  else .ok ()

/-- `isConnected` (adapter.ts, lines 60-62). -/
def BaseChainAdapter.isConnected (a : BaseChainAdapter) : Bool :=
  match a._channel with
  | none => false
  | some ch => ch.connected

theorem lookupKV_isSome_iff_mem {α : Type} (l : List (String × α)) (k : String) :
    (lookupKV l k).isSome = true ↔ k ∈ l.map Prod.fst := by
  induction l with
  | nil => simp [lookupKV]
  | cons kv rest ih =>
    obtain ⟨k', v'⟩ := kv
    by_cases h : k' = k
    · subst h
      simp [lookupKV]
    · simp only [lookupKV, if_neg h, List.map_cons, List.mem_cons]
      rw [ih]
      constructor
      · intro hm
        exact Or.inr hm
      · intro hm
        cases hm with
        | inl he => exact absurd he.symm h
        | inr hm => exact hm

theorem lookupKV_mem {α : Type} (l : List (String × α)) (k : String) (v : α)
    (h : lookupKV l k = some v) : (k, v) ∈ l := by
  induction l with
  | nil => simp [lookupKV] at h
  | cons kv rest ih =>
    obtain ⟨k', v'⟩ := kv
    by_cases hk : k' = k
    · subst hk
      rw [lookupKV, if_pos rfl] at h
      obtain rfl := Option.some.inj h
      exact List.mem_cons_self _ _
    · rw [lookupKV, if_neg hk] at h
      exact List.mem_cons_of_mem _ (ih h)

theorem lookupKV_append {α : Type} (a b : List (String × α)) (k : String) :
    lookupKV (a ++ b) k =
      (match lookupKV a k with
       | some v => some v
       | none => lookupKV b k) := by
  induction a with
  | nil => simp [lookupKV]
  | cons kv rest ih =>
    obtain ⟨k', v'⟩ := kv
    by_cases h : k' = k
    · simp [lookupKV, h]
    · simp only [List.cons_append, lookupKV, if_neg h]
      exact ih

theorem lookup_foldl_setKV {α : Type} (l : List (String × α)) :
    ∀ (m0 : List (String × α)) (k : String),
      lookupKV (l.foldl (fun m kv => setKV m kv.1 kv.2) m0) k =
        (match lookupKV l.reverse k with
         | some v => some v
         | none => lookupKV m0 k) := by
  induction l with
  | nil => intro m0 k; simp [lookupKV]
  | cons kv rest ih =>
    obtain ⟨k0, v0⟩ := kv
    intro m0 k
    rw [List.foldl_cons, ih (setKV m0 k0 v0) k, List.reverse_cons, lookupKV_append]
    cases hrev : lookupKV rest.reverse k with
    | some v => simp
    | none =>
      simp only []
      by_cases hk : k0 = k
      · subst hk
        rw [lookupKV_setKV_self]
        simp [lookupKV]
      · rw [lookupKV_setKV_ne _ _ _ _ (fun he => hk he.symm)]
        simp [lookupKV, hk]

theorem setKV_keys_nodup {α : Type} (l : List (String × α)) (k : String) (v : α)
    (h : (l.map Prod.fst).Nodup) : ((setKV l k v).map Prod.fst).Nodup := by
  induction l with
  | nil => simp [setKV]
  | cons kv rest ih =>
    obtain ⟨k', v'⟩ := kv
    simp only [List.map_cons, List.nodup_cons] at h
    by_cases hk : k' = k
    · subst hk
      have hstep : setKV ((k', v') :: rest) k' v = (k', v) :: rest := by
        rw [setKV, if_pos rfl]
      rw [hstep, List.map_cons, List.nodup_cons]
      exact h
    · simp only [setKV, if_neg hk, List.map_cons, List.nodup_cons]
      refine ⟨?_, ih h.2⟩
      intro hmem
      have : k' ∈ (setKV rest k v).map Prod.fst := hmem
      rw [← lookupKV_isSome_iff_mem] at this
      rw [lookupKV_setKV_ne _ _ _ _ hk] at this
      rw [lookupKV_isSome_iff_mem] at this
      exact h.1 this

theorem verifyLoop_cons (st : BaseWebStorage) (excl : List String) (k : String)
    (v : JVal) (rest : List (String × JVal)) :
    verifyLoop st excl ((k, v) :: rest) =
      if excl.contains k then verifyLoop st excl rest
      else
        match st.hasKey k with
        | none => none
        | some false => some false
        | some true =>
          match st.getItem k with
          | none => none
          | some sv =>
            if jsonStringify sv = jsonStringify v then verifyLoop st excl rest
            else some false := by
  rw [verifyLoop.eq_def]

theorem verifyLoop_filter (st : BaseWebStorage) (excl : List String) :
    ∀ states, verifyLoop st excl states
      = verifyLoop st excl (states.filter (fun kv => !(excl.contains kv.1))) := by
  intro states
  induction states with
  | nil => rfl
  | cons kv rest ih =>
    obtain ⟨k, v⟩ := kv
    by_cases hc : excl.contains k
    · rw [verifyLoop_cons, if_pos hc, List.filter_cons]
      simp only [hc, Bool.not_true]
      rw [if_neg (by simp)]
      exact ih
    · rw [verifyLoop_cons, if_neg hc, List.filter_cons]
      have hcf : excl.contains k = false := by simpa using hc
      simp only [hcf, Bool.not_false]
      rw [if_pos (by simp)]
      rw [verifyLoop_cons, if_neg hc]
      cases st.hasKey k with
      | none => rfl
      | some b =>
        cases b with
        | false => rfl
        | true =>
          simp only []
          cases st.getItem k with
          | none => rfl
          | some sv =>
            simp only []
            by_cases he : jsonStringify sv = jsonStringify v
            · rw [if_pos he, if_pos he]
              exact ih
            · rw [if_neg he, if_neg he]

theorem verifyLoop_true_iff (st : BaseWebStorage) (excl : List String) :
    ∀ states, verifyLoop st excl states = some true ↔
      ∀ kv ∈ states, kv.1 ∉ excl →
        st.hasKey kv.1 = some true ∧
        ∃ sv, st.getItem kv.1 = some sv ∧ jsonStringify sv = jsonStringify kv.2 := by
  intro states
  induction states with
  | nil => simp [verifyLoop]
  | cons kv rest ih =>
    obtain ⟨k, v⟩ := kv
    by_cases hc : excl.contains k
    · have hmem : k ∈ excl := by simpa using hc
      rw [verifyLoop_cons, if_pos hc, ih]
      constructor
      · intro hall kv2 hkv2 hne
        cases hkv2 with
        | head => exact absurd hmem hne
        | tail _ hm => exact hall kv2 hm hne
      · intro hall kv2 hkv2 hne
        exact hall kv2 (List.mem_cons_of_mem _ hkv2) hne
    · have hmem : k ∉ excl := by simpa using hc
      rw [verifyLoop_cons, if_neg hc]
      cases hk : st.hasKey k with
      | none =>
        simp only []
        constructor
        · intro h; exact absurd h (by simp)
        · intro hall
          have := (hall (k, v) (List.mem_cons_self _ _) hmem).1
          rw [hk] at this
          exact absurd this (by simp)
      | some b =>
        cases b with
        | false =>
          simp only []
          constructor
          · intro h; exact absurd h (by simp)
          · intro hall
            have := (hall (k, v) (List.mem_cons_self _ _) hmem).1
            rw [hk] at this
            exact absurd this (by simp)
        | true =>
          simp only []
          cases hg : st.getItem k with
          | none =>
            simp only []
            constructor
            · intro h; exact absurd h (by simp)
            · intro hall
              obtain ⟨sv, hsv, _⟩ := (hall (k, v) (List.mem_cons_self _ _) hmem).2
              rw [hg] at hsv
              exact absurd hsv (by simp)
          | some sv =>
            simp only []
            by_cases he : jsonStringify sv = jsonStringify v
            · rw [if_pos he, ih]
              constructor
              · intro hall kv2 hkv2 hne
                cases hkv2 with
                | head => exact ⟨hk, sv, hg, he⟩
                | tail _ hm => exact hall kv2 hm hne
              · intro hall kv2 hkv2 hne
                exact hall kv2 (List.mem_cons_of_mem _ hkv2) hne
            · rw [if_neg he]
              constructor
              · intro h; exact absurd h (by simp)
              · intro hall
                obtain ⟨sv2, hsv2, he2⟩ := (hall (k, v) (List.mem_cons_self _ _) hmem).2
                rw [hg] at hsv2
                obtain rfl := Option.some.inj hsv2
                exact absurd he2 he

theorem verifyLoop_false_of_absent (st : BaseWebStorage) (excl : List String) :
    ∀ states k v b, (k, v) ∈ states → k ∉ excl → st.hasKey k = some false →
      verifyLoop st excl states = some b → b = false := by
  intro states
  induction states with
  | nil => intro k v b hm; simp at hm
  | cons kv rest ih =>
    obtain ⟨k0, v0⟩ := kv
    intro k v b hm hne hfalse hres
    by_cases hc : excl.contains k0
    · rw [verifyLoop_cons, if_pos hc] at hres
      cases hm with
      | head => exact absurd (by simpa using hc) hne
      | tail _ hm2 => exact ih k v b hm2 hne hfalse hres
    · rw [verifyLoop_cons, if_neg hc] at hres
      by_cases hk0 : k0 = k
      · subst hk0
        rw [hfalse] at hres
        simp only [] at hres
        exact (Option.some.inj hres).symm
      · cases hk : st.hasKey k0 with
        | none => rw [hk] at hres; exact absurd hres (by simp)
        | some b0 =>
          rw [hk] at hres
          cases b0 with
          | false =>
            simp only [] at hres
            exact (Option.some.inj hres).symm
          | true =>
            simp only [] at hres
            cases hg : st.getItem k0 with
            | none => rw [hg] at hres; exact absurd hres (by simp)
            | some sv =>
              rw [hg] at hres
              simp only [] at hres
              by_cases he : jsonStringify sv = jsonStringify v0
              · rw [if_pos he] at hres
                cases hm with
                | head => exact absurd rfl hk0
                | tail _ hm2 => exact ih k v b hm2 hne hfalse hres
              · rw [if_neg he] at hres
                exact (Option.some.inj hres).symm

theorem foldSetItems_getItem (data : List (String × JVal))
    (hnd : (data.map Prod.fst).Nodup) :
    ∀ st : BaseWebStorage, st.attached = true → st.pfx = none →
      ∃ st2, foldSetItems st data = some st2 ∧ st2.attached = true ∧ st2.pfx = none ∧
        (∀ k v, lookupKV data k = some v → st2.getItem k = some v) ∧
        (∀ k, k ∉ data.map Prod.fst → st2.getItem k = st.getItem k) := by
  induction data with
  | nil =>
    intro st ha hpfx
    exact ⟨st, rfl, ha, hpfx, fun k v h => by simp [lookupKV] at h,
      fun k _ => rfl⟩
  | cons kv rest ih =>
    obtain ⟨k0, v0⟩ := kv
    simp only [List.map_cons, List.nodup_cons] at hnd
    intro st ha hpfx
    have hset := setItem_eq st k0 v0 ha
    set st' := st.withUnder (setKV st.underlying (st.getPrefixedName k0)
      (jsonStringify v0)) with hst'
    have ha' : st'.attached = true := by rw [hst', withUnder_attached]; exact ha
    have hpfx' : st'.pfx = none := by rw [hst', withUnder_pfx]; exact hpfx
    obtain ⟨st2, hfold, ha2, hpfx2, hlook, hpres⟩ := ih hnd.2 st' ha' hpfx'
    refine ⟨st2, ?_, ha2, hpfx2, ?_, ?_⟩
    · rw [foldSetItems, hset]
      exact hfold
    · intro k v hkv
      by_cases hk : k0 = k
      · subst hk
        rw [lookupKV, if_pos rfl] at hkv
        obtain rfl := Option.some.inj hkv
        rw [hpres k0 hnd.1]
        exact getItem_setItem_self st k0 v0 st' hset
      · rw [lookupKV, if_neg hk] at hkv
        exact hlook k v hkv
    · intro k hk
      simp only [List.map_cons, List.mem_cons, not_or] at hk
      rw [hpres k hk.2]
      refine getItem_setItem_ne st k0 k v0 st' hset ?_
      rw [getPrefixedName_none st hpfx, getPrefixedName_none st hpfx]
      exact fun he => hk.1 he

theorem foldRemoveItems_getItem (ks : List String) :
    ∀ st : BaseWebStorage, st.attached = true → st.pfx = none →
      ∃ st2, foldRemoveItems st ks = some st2 ∧ st2.attached = true ∧ st2.pfx = none ∧
        (∀ q, q ∈ ks → st2.getItem q = some .jnull) ∧
        (∀ k, k ∉ ks → st2.getItem k = st.getItem k) := by
  induction ks with
  | nil =>
    intro st ha hpfx
    exact ⟨st, rfl, ha, hpfx, fun q h => by simp at h, fun k _ => rfl⟩
  | cons q rest ih =>
    intro st ha hpfx
    have hrem := removeItem_eq st q ha
    set st' := st.withUnder (eraseKV st.underlying (st.getPrefixedName q)) with hst'
    have ha' : st'.attached = true := by rw [hst', withUnder_attached]; exact ha
    have hpfx' : st'.pfx = none := by rw [hst', withUnder_pfx]; exact hpfx
    obtain ⟨st2, hfold, ha2, hpfx2, hrm, hpres⟩ := ih st' ha' hpfx'
    refine ⟨st2, ?_, ha2, hpfx2, ?_, ?_⟩
    · rw [foldRemoveItems, hrem]
      exact hfold
    · intro q2 hq2
      cases hq2 with
      | head =>
        by_cases hmem : q ∈ rest
        · exact hrm q hmem
        · rw [hpres q hmem]
          exact getItem_removeItem_self st q st' hrem
      | tail _ hm => exact hrm q2 hm
    · intro k hk
      simp only [List.mem_cons, not_or] at hk
      rw [hpres k hk.2]
      refine getItem_removeItem_ne st q k st' hrem ?_
      rw [getPrefixedName_none st hpfx, getPrefixedName_none st hpfx]
      exact hk.1

theorem hasKey_some_true_iff (st : BaseWebStorage) (k : String) :
    st.hasKey k = some true ↔ ∃ v, st.getItem k = some v ∧ v ≠ .jnull := by
  rw [BaseWebStorage.hasKey]
  cases hg : st.getItem k with
  | none => simp
  | some v =>
    cases v with
    | jnull => simp
    | jbool b => simp
    | jnum n => simp
    | jstr s => simp
    | jarr l => simp
    | jobj l => simp

theorem hasKey_some_false_iff (st : BaseWebStorage) (k : String) :
    st.hasKey k = some false ↔ st.getItem k = some .jnull := by
  rw [BaseWebStorage.hasKey]
  cases hg : st.getItem k with
  | none => simp
  | some v =>
    cases v with
    | jnull => simp
    | jbool b => simp
    | jnum n => simp
    | jstr s => simp
    | jarr l => simp
    | jobj l => simp

theorem hasKey_isSome_of_wf (st : BaseWebStorage) (k : String)
    (ha : st.attached = true) (hwf : st.wf = true) :
    (st.hasKey k).isSome = true := by
  rw [BaseWebStorage.hasKey, getItem_eq st k ha]
  cases hl : lookupKV st.underlying (st.getPrefixedName k) with
  | none => rfl
  | some raw =>
    have hmem := lookupKV_mem _ _ _ hl
    rw [BaseWebStorage.wf, List.all_eq_true] at hwf
    have := hwf _ hmem
    simp only [] at this
    cases hp : jsonParse raw with
    | none => rw [hp] at this; exact absurd this (by simp)
    | some v =>
      simp only [hp]
      cases v <;> rfl

/-- Claim C2 (code bug): `fromFrozenState` constructs the new delegate
with `new AuthenticationDelegate()` and no options, so the storage field
of that delegate is never assigned; `getState` then dereferences an
undefined storage and the returned promise rejects with a TypeError.  No
delegate is ever produced, whatever the registries and the stored frozen
state are, so the freeze / fromFrozenState round trip never completes. -/
theorem c2_fromFrozenState_always_rejects (maps : StaticMaps) :
    AuthenticationDelegate.fromFrozenState maps = .error .typeError := rfl

/-- Claim C5: on a delegate whose connected storage holds no value under
the key project_identifier, `handleUserRegistration` fails with the
project-identifier-missing error, whatever the resolver binding and the
other delegate fields are. -/
theorem c5_registration_requires_project_id (d : AuthenticationDelegate)
    (st : BaseWebStorage) (hst : d.storage = some st) (ha : st.attached = true)
    (hmiss : lookupKV st.underlying (st.getPrefixedName "project_identifier") = none) :
    d.handleUserRegistration = .error .projectIdentifierNotProvided := by
  have hget : st.getItem "project_identifier" = some .jnull := by
    rw [getItem_eq st _ ha, hmiss]
  have hkey : st.hasKey "project_identifier" = some false := by
    rw [BaseWebStorage.hasKey, hget]
  rw [AuthenticationDelegate.handleUserRegistration, hst]
  simp only [hkey]

def c5store : BaseWebStorage := { attached := true, underlying := [], pfx := none }

def c5delegate : AuthenticationDelegate :=
  { respondStrategy := none, identityResolver := some { rid := "web3resolver" },
    resolverDelegateBound := true, respondFrame := none, _state := [],
    storage := some c5store }

theorem c5_registration_requires_project_id_witness :
    c5delegate.storage = some c5store ∧ c5store.attached = true ∧
    lookupKV c5store.underlying (c5store.getPrefixedName "project_identifier") = none ∧
    c5delegate.handleUserRegistration = .error .projectIdentifierNotProvided :=
  ⟨rfl, rfl, rfl, c5_registration_requires_project_id c5delegate c5store rfl rfl rfl⟩

def c6adapter : BaseChainAdapter :=
  { _channel := none, protocol := none, onConnectBound := false,
    className := "BaseChainAdapter" }

/-- Claim C6 counterexample: on an adapter whose channel is undefined,
`checkConnection` does not throw `ChannelIsNotDefined`: it dereferences
the undefined channel and fails with a TypeError, because the method
lacks the `checkChannel` guard the other methods have. -/
theorem c6_checkConnection_counterexample :
    c6adapter.checkConnection = .error .typeErrorUndefinedChannel ∧
    (Except.error AdapterErr.typeErrorUndefinedChannel : Except AdapterErr Bool)
      ≠ .error (.channelIsNotDefined "BaseChainAdapter") := by
  refine ⟨rfl, ?_⟩
  intro h
  exact AdapterErr.noConfusion (Except.error.inj h)

/-- Claim C6 amended: with an undefined channel, the constructor,
`connect`, `request`, `checkSession` and `on` all throw
`ChannelIsNotDefined` before reaching the channel, while
`checkConnection` instead accesses the undefined channel directly and
fails with a TypeError. -/
theorem c6_channel_guards (a : BaseChainAdapter) (options : ChainAdapterOptions)
    (h : a._channel = none) (hopt : options.channel = none) :
    BaseChainAdapter.construct options
        = .error (.channelIsNotDefined "BaseChainAdapter") ∧
    a.connect = .error (.channelIsNotDefined a.className) ∧
    a.request = .error (.channelIsNotDefined a.className) ∧
    a.checkSession = .error (.channelIsNotDefined a.className) ∧
    (∀ ev, a.on ev = .error (.channelIsNotDefined a.className)) ∧
    a.checkConnection = .error .typeErrorUndefinedChannel := by
  have hcheck : a.checkChannel = .error (.channelIsNotDefined a.className) := by
    rw [BaseChainAdapter.checkChannel, h]
    rfl
  refine ⟨?_, ?_, ?_, ?_, ?_, ?_⟩
  · rw [BaseChainAdapter.construct]
    simp only [BaseChainAdapter.checkChannel, hopt]
    rfl
  · rw [BaseChainAdapter.connect, hcheck]
  · rw [BaseChainAdapter.request, hcheck]
  · rw [BaseChainAdapter.checkSession, hcheck]
  · intro ev
    rw [BaseChainAdapter.on, h]
    rfl
  · rw [BaseChainAdapter.checkConnection, h]

def c6options : ChainAdapterOptions :=
  { channel := none, protocolDefination := none, onConnect := false }

theorem c6_channel_guards_witness :
    c6adapter._channel = none ∧ c6options.channel = none ∧
    c6adapter.request = .error (.channelIsNotDefined "BaseChainAdapter") ∧
    c6adapter.checkConnection = .error .typeErrorUndefinedChannel :=
  ⟨rfl, rfl, (c6_channel_guards c6adapter c6options rfl rfl).2.2.1,
    (c6_channel_guards c6adapter c6options rfl rfl).2.2.2.2.2⟩

/-- Claim C7: on a serializing web storage, after `setItem key value` the
`getItem key` returns a value with the same JSON serialization (the
model proves the stronger fact that the value itself comes back, because
`deserialize` inverts `serialize`); on the in-memory `WebWindowStore`
the stored value itself is returned, unserialized. -/
theorem c7_storage_roundtrip (st : BaseWebStorage) (k : String) (v : JVal)
    (st' : BaseWebStorage) (w w' : WebWindowStore)
    (h : st.setItem k v = some st') (hw : w.setItem k v = some w') :
    st'.getItem k = some v ∧
    (∀ rv, st'.getItem k = some rv → jsonStringify rv = jsonStringify v) ∧
    jsonParse (jsonStringify v) = some v ∧
    w'.getItem k = some (some v) := by
  have h1 := getItem_setItem_self st k v st' h
  refine ⟨h1, ?_, jsonParse_jsonStringify v, wws_getItem_setItem w k v w' hw⟩
  intro rv hrv
  rw [h1] at hrv
  rw [Option.some.inj hrv]

def c7store : BaseWebStorage := { attached := true, underlying := [], pfx := none }

def c7wws : WebWindowStore := ⟨some []⟩

theorem c7_storage_roundtrip_witness :
    c7store.setItem "state" (.jstr "abc")
        = some (c7store.withUnder [("state", jsonStringify (.jstr "abc"))]) ∧
    c7wws.setItem "state" (.jstr "abc") = some ⟨some [("state", .jstr "abc")]⟩ ∧
    (c7store.withUnder [("state", jsonStringify (.jstr "abc"))]).getItem "state"
        = some (.jstr "abc") ∧
    (⟨some [("state", .jstr "abc")]⟩ : WebWindowStore).getItem "state"
        = some (some (.jstr "abc")) := by
  have h1 : c7store.setItem "state" (.jstr "abc")
      = some (c7store.withUnder [("state", jsonStringify (.jstr "abc"))]) := rfl
  have h2 : c7wws.setItem "state" (.jstr "abc")
      = some ⟨some [("state", .jstr "abc")]⟩ := rfl
  have h := c7_storage_roundtrip c7store "state" (.jstr "abc") _ c7wws _ h1 h2
  exact ⟨h1, h2, h.1, h.2.2.2⟩


/-- Unfolding of `verifyStates` on a delegate with an attached storage:
the connectivity probe succeeds and the loop runs over the ping-cycled
store. -/
theorem verifyStates_eq (d : AuthenticationDelegate) (st : BaseWebStorage)
    (states : List (String × JVal)) (hst : d.storage = some st)
    (ha : st.attached = true) :
    d.verifyStates states =
      (match verifyLoop (st.withUnder (eraseKV st.underlying
          (st.getPrefixedName pingKey))) verificationExcludedStates states with
       | none => .error .typeError
       | some b => .ok (b, { d with storage := some (st.withUnder (eraseKV
           st.underlying (st.getPrefixedName pingKey))) })) := by
  rw [AuthenticationDelegate.verifyStates, hst]
  simp only [isConnected_eq, ha, if_pos]

/-- Unfolding of `verifyStates` on a delegate with a detached storage:
the connectivity probe fails and false is returned. -/
theorem verifyStates_eq_detached (d : AuthenticationDelegate)
    (st : BaseWebStorage) (states : List (String × JVal))
    (hst : d.storage = some st) (ha : st.attached = false) :
    d.verifyStates states = .ok (false, { d with storage := some st }) := by
  rw [AuthenticationDelegate.verifyStates, hst]
  simp only [isConnected_eq, ha]
  rfl

/-- Claim C9: `hasKey` is true exactly when `getItem` returns a non-null
value; a key explicitly stored with the value null serializes to the raw
string parsed back as null, so `hasKey` reports it absent, and
`verifyStates` consequently never accepts a state map containing such a
key outside the excluded list. -/
theorem c9_hasKey_null_semantics (st : BaseWebStorage) (k : String)
    (st' : BaseWebStorage) (d : AuthenticationDelegate) (st2 : BaseWebStorage)
    (k2 : String) (v : JVal) (states : List (String × JVal))
    (h : st.setItem k .jnull = some st')
    (hst : d.storage = some st2) (ha : st2.attached = true)
    (hnull : lookupKV st2.underlying (st2.getPrefixedName k2)
        = some (jsonStringify .jnull))
    (hping : st2.getPrefixedName k2 ≠ st2.getPrefixedName pingKey)
    (hmem : (k2, v) ∈ states) (hexcl : k2 ∉ verificationExcludedStates) :
    (st.hasKey k = some true ↔ ∃ w, st.getItem k = some w ∧ w ≠ .jnull) ∧
    st'.hasKey k = some false ∧
    (∀ b d2, d.verifyStates states = .ok (b, d2) → b = false) := by
  refine ⟨hasKey_some_true_iff st k, ?_, ?_⟩
  · rw [hasKey_some_false_iff]
    exact getItem_setItem_self st k .jnull st' h
  · intro b d2 hres
    rw [verifyStates_eq d st2 states hst ha] at hres
    set pcst := st2.withUnder (eraseKV st2.underlying (st2.getPrefixedName pingKey))
      with hpc
    have hfalse : pcst.hasKey k2 = some false := by
      rw [hasKey_some_false_iff, getItem_eq pcst k2
        (by rw [hpc, withUnder_attached]; exact ha)]
      rw [hpc, withUnder_getPrefixedName, withUnder_underlying,
        lookupKV_eraseKV_ne _ _ _ hping, hnull]
      exact jsonParse_jsonStringify .jnull
    cases hloop : verifyLoop pcst verificationExcludedStates states with
    | none => rw [hloop] at hres; exact absurd hres (by simp)
    | some b0 =>
      rw [hloop] at hres
      simp only [] at hres
      have hb : b0 = b := congrArg Prod.fst (Except.ok.inj hres)
      rw [← hb]
      exact verifyLoop_false_of_absent pcst verificationExcludedStates states
        k2 v b0 hmem hexcl hfalse hloop

def c9store : BaseWebStorage := { attached := true, underlying := [], pfx := none }

def c9inner : BaseWebStorage :=
  { attached := true, underlying := [("state", jsonStringify .jnull)], pfx := none }

def c9delegate : AuthenticationDelegate :=
  { respondStrategy := none, identityResolver := none,
    resolverDelegateBound := false, respondFrame := none, _state := [],
    storage := some c9inner }

theorem c9_hasKey_null_semantics_witness :
    c9store.setItem "state" .jnull
        = some (c9store.withUnder [("state", jsonStringify .jnull)]) ∧
    (c9store.withUnder [("state", jsonStringify .jnull)]).hasKey "state"
        = some false ∧
    (∀ b d2, c9delegate.verifyStates [("state", .jstr "abc")] = .ok (b, d2)
      → b = false) := by
  have h1 : c9store.setItem "state" .jnull
      = some (c9store.withUnder [("state", jsonStringify .jnull)]) := rfl
  have hst : c9delegate.storage = some c9inner := rfl
  have hnull : lookupKV c9inner.underlying (c9inner.getPrefixedName "state")
      = some (jsonStringify .jnull) := rfl
  have hping : c9inner.getPrefixedName "state"
      ≠ c9inner.getPrefixedName pingKey := by
    rw [getPrefixedName_none c9inner rfl, getPrefixedName_none c9inner rfl]
    intro he
    exact absurd (congrArg String.data he) (by decide)
  have h := c9_hasKey_null_semantics c9store "state" _ c9delegate c9inner
    "state" (.jstr "abc") [("state", .jstr "abc")] h1 hst rfl hnull hping
    (List.mem_cons_self _ _) (by decide)
  exact ⟨h1, h.2.1, h.2.2⟩

/-- Claim C10: `disconnect` runs the before-disconnect callback, then
`clear()`, then nulls the storage field, so every stored key is erased
whatever the callback did; afterwards `isConnected` returns false and
every storage operation fails, until `connect` rebinds the storage area,
after which the store is connected and still empty. -/
theorem c10_disconnect_erases (cb : BaseWebStorage → BaseWebStorage)
    (st st' : BaseWebStorage) (h : BaseWebStorage.disconnect cb st = some st') :
    st'.underlying = [] ∧ st'.attached = false ∧
    (st'.isConnected).1 = false ∧ (st'.isConnected).2 = st' ∧
    (∀ k, st'.getItem k = none) ∧ (∀ k v, st'.setItem k v = none) ∧
    (∀ k, st'.removeItem k = none) ∧ st'.clear = none ∧
    ((st'.connectLocal).isConnected).1 = true ∧
    (∀ k, st'.connectLocal.getItem k = some .jnull) := by
  rw [BaseWebStorage.disconnect] at h
  cases hc : (cb st).clear with
  | none => rw [hc] at h; exact absurd h (by simp)
  | some st2 =>
    rw [hc] at h
    simp only [] at h
    obtain rfl := Option.some.inj h
    rw [BaseWebStorage.clear] at hc
    by_cases ha : (cb st).attached
    · rw [if_pos ha] at hc
      obtain rfl := Option.some.inj hc
      have h1 : ({ (cb st) with underlying := [], attached := false }
          : BaseWebStorage).underlying = [] := rfl
      have h2 : ({ (cb st) with underlying := [], attached := false }
          : BaseWebStorage).attached = false := rfl
      refine ⟨h1, h2, ?_, ?_, ?_, ?_, ?_, ?_, ?_, ?_⟩
      · rw [isConnected_eq, h2]
      · rw [isConnected_eq, h2]
        simp
      · intro k
        rw [BaseWebStorage.getItem, h2]
        simp
      · intro k v
        rw [BaseWebStorage.setItem, h2]
        simp
      · intro k
        rw [BaseWebStorage.removeItem, h2]
        simp
      · rw [BaseWebStorage.clear, h2]
        simp
      · rw [isConnected_eq]
        rfl
      · intro k
        rw [getItem_eq _ k rfl]
        rfl
    · rw [if_neg ha] at hc
      exact absurd hc (by simp)

def c10store : BaseWebStorage :=
  { attached := true, underlying := [("state", jsonStringify (.jstr "abc"))],
    pfx := none }

theorem c10_disconnect_erases_witness :
    BaseWebStorage.disconnect id c10store
        = some { attached := false, underlying := [], pfx := none } ∧
    ({ attached := false, underlying := [], pfx := none }
        : BaseWebStorage).underlying = [] ∧
    (({ attached := false, underlying := [], pfx := none }
        : BaseWebStorage).isConnected).1 = false ∧
    ((({ attached := false, underlying := [], pfx := none }
        : BaseWebStorage).connectLocal).isConnected).1 = true := by
  have h1 : BaseWebStorage.disconnect id c10store
      = some { attached := false, underlying := [], pfx := none } := rfl
  have h := c10_disconnect_erases id c10store _ h1
  exact ⟨h1, h.1, h.2.2.1, h.2.2.2.2.2.2.2.2.1⟩

/-- Unfolding of `clean` on a delegate with an attached storage. -/
theorem clean_eq (d : AuthenticationDelegate) (st : BaseWebStorage)
    (hst : d.storage = some st) (ha : st.attached = true) :
    d.clean =
      (match foldRemoveItems (st.withUnder (eraseKV st.underlying
          (st.getPrefixedName pingKey))) allowedQueryParams with
       | none => .error .typeError
       | some st2 => .ok { d with storage := some st2 }) := by
  rw [AuthenticationDelegate.clean, hst]
  simp only [isConnected_eq, ha, if_pos]

theorem hasKey_congr (st st2 : BaseWebStorage) (k : String)
    (h : st.getItem k = st2.getItem k) : st.hasKey k = st2.hasKey k := by
  rw [BaseWebStorage.hasKey, BaseWebStorage.hasKey, h]

/-- Claim C8: on a delegate with a connected store and a bound
communicator, `close` removes every `AllowedQueryParams` key from
storage, removes the legacy `walletconnect` key when present, and
invokes the communicator close. -/
theorem c8_close_removes_and_notifies (d : AuthenticationDelegate)
    (st : BaseWebStorage) (hst : d.storage = some st) (ha : st.attached = true)
    (hpfx : st.pfx = none) (hwf : st.wf = true)
    (hframe : d.respondFrame.isSome = true) :
    ∃ d2 st2, d.close = .ok (d2, true) ∧ d2.storage = some st2 ∧
      (∀ q ∈ allowedQueryParams, st2.getItem q = some .jnull) ∧
      st2.getItem "walletconnect" = some .jnull := by
  set pcst := st.withUnder (eraseKV st.underlying (st.getPrefixedName pingKey))
    with hpc
  have hapc : pcst.attached = true := by rw [hpc, withUnder_attached]; exact ha
  have hppc : pcst.pfx = none := by rw [hpc, withUnder_pfx]; exact hpfx
  obtain ⟨st2, hfold, ha2, hpfx2, hrm, hpres⟩ :=
    foldRemoveItems_getItem allowedQueryParams pcst hapc hppc
  have hclean : d.clean = .ok { d with storage := some st2 } := by
    rw [clean_eq d st hst ha, ← hpc, hfold]
  have hwcAQP : "walletconnect" ∉ allowedQueryParams := by decide
  have hwc_get : st2.getItem "walletconnect" = st.getItem "walletconnect" := by
    rw [hpres "walletconnect" hwcAQP, hpc]
    rw [getItem_eq _ _ hapc, getItem_eq st _ ha]
    rw [hpc, withUnder_getPrefixedName, withUnder_underlying]
    rw [lookupKV_eraseKV_ne]
    rw [getPrefixedName_none st hpfx, getPrefixedName_none st hpfx]
    intro he
    exact absurd (congrArg String.data he) (by decide)
  have hwc_has : st2.hasKey "walletconnect" = st.hasKey "walletconnect" :=
    hasKey_congr st2 st "walletconnect" hwc_get
  have hsome := hasKey_isSome_of_wf st "walletconnect" ha hwf
  rw [AuthenticationDelegate.close, hclean]
  simp only []
  cases hk : st.hasKey "walletconnect" with
  | none => rw [hk] at hsome; exact absurd hsome (by simp)
  | some b =>
    cases b with
    | false =>
      rw [hwc_has, hk]
      simp only []
      refine ⟨{ d with storage := some st2 }, st2, ?_, rfl, hrm, ?_⟩
      · rw [hframe]
      · rw [← hasKey_some_false_iff st2 "walletconnect", hwc_has, hk]
    | true =>
      rw [hwc_has, hk]
      simp only []
      have hrem := removeItem_eq st2 "walletconnect" ha2
      rw [hrem]
      simp only []
      refine ⟨{ d with storage := some (st2.withUnder (eraseKV st2.underlying
          (st2.getPrefixedName "walletconnect"))) },
        st2.withUnder (eraseKV st2.underlying
          (st2.getPrefixedName "walletconnect")), ?_, rfl, ?_, ?_⟩
      · have hrf : ({ d with storage := some st2 }
            : AuthenticationDelegate).respondFrame = d.respondFrame := rfl
        rw [hrf, hframe]
      · intro q hq
        have hne : st2.getPrefixedName q ≠ st2.getPrefixedName "walletconnect" := by
          rw [getPrefixedName_none st2 hpfx2, getPrefixedName_none st2 hpfx2]
          intro he
          subst he
          exact hwcAQP hq
        rw [getItem_removeItem_ne st2 "walletconnect" q _ hrem hne]
        exact hrm q hq
      · exact getItem_removeItem_self st2 "walletconnect" _ hrem

def c8store : BaseWebStorage :=
  { attached := true,
    underlying := [("walletconnect", jsonStringify (.jstr "v1"))], pfx := none }

def c8delegate : AuthenticationDelegate :=
  { respondStrategy := none, identityResolver := none,
    resolverDelegateBound := false, respondFrame := some { fid := "webframe" },
    _state := [], storage := some c8store }

theorem c8_close_removes_and_notifies_witness :
    c8delegate.storage = some c8store ∧ c8store.attached = true ∧
    c8store.pfx = none ∧ c8store.wf = true ∧
    c8delegate.respondFrame.isSome = true ∧
    (∃ d2 st2, c8delegate.close = .ok (d2, true) ∧ d2.storage = some st2 ∧
      (∀ q ∈ allowedQueryParams, st2.getItem q = some .jnull) ∧
      st2.getItem "walletconnect" = some .jnull) :=
  ⟨rfl, rfl, rfl, by decide, rfl,
    c8_close_removes_and_notifies c8delegate c8store rfl rfl rfl (by decide) rfl⟩

/-- Claim C1: `verifyStates` returns false when the storage is not
connected; on a connected storage it returns true exactly when every
non-excluded key of the map is present in storage with an equal JSON
serialization (presence and value are read from the store as the loop
sees it, after the connectivity ping round-trip); and the result is
unchanged under any modification of the excluded entries of the input
map. -/
theorem c1_verifyStates_semantics (d : AuthenticationDelegate)
    (st : BaseWebStorage) (states states2 : List (String × JVal))
    (hst : d.storage = some st)
    (hfil : states.filter (fun kv => !(verificationExcludedStates.contains kv.1))
        = states2.filter (fun kv => !(verificationExcludedStates.contains kv.1))) :
    (st.attached = false →
      (d.verifyStates states).toOption.map Prod.fst = some false) ∧
    ((d.verifyStates states).toOption.map Prod.fst = some true ↔
      st.attached = true ∧
      ∀ kv ∈ states, kv.1 ∉ verificationExcludedStates →
        (st.withUnder (eraseKV st.underlying
          (st.getPrefixedName pingKey))).hasKey kv.1 = some true ∧
        ∃ sv, (st.withUnder (eraseKV st.underlying
            (st.getPrefixedName pingKey))).getItem kv.1 = some sv ∧
          jsonStringify sv = jsonStringify kv.2) ∧
    d.verifyStates states = d.verifyStates states2 := by
  set pcst := st.withUnder (eraseKV st.underlying (st.getPrefixedName pingKey))
    with hpc
  refine ⟨?_, ?_, ?_⟩
  · intro ha
    rw [verifyStates_eq_detached d st states hst ha]
    rfl
  · cases ha : st.attached with
    | false =>
      rw [verifyStates_eq_detached d st states hst ha]
      constructor
      · intro h
        exact absurd h (by simp [Except.toOption])
      · intro h
        exact absurd h.1 (by simp [ha])
    | true =>
      rw [verifyStates_eq d st states hst ha, ← hpc]
      cases hloop : verifyLoop pcst verificationExcludedStates states with
      | none =>
        simp only []
        constructor
        · intro h
          exact absurd h (by simp [Except.toOption])
        · intro h
          have := (verifyLoop_true_iff pcst verificationExcludedStates states).mpr h.2
          rw [hloop] at this
          exact absurd this (by simp)
      | some b =>
        simp only []
        constructor
        · intro h
          have hb : b = true := by
            simpa [Except.toOption] using h
          subst hb
          exact ⟨trivial,
            (verifyLoop_true_iff pcst verificationExcludedStates states).mp hloop⟩
        · intro h
          have := (verifyLoop_true_iff pcst verificationExcludedStates states).mpr h.2
          rw [hloop] at this
          obtain rfl := Option.some.inj this
          rfl
  · cases ha : st.attached with
    | false =>
      rw [verifyStates_eq_detached d st states hst ha,
        verifyStates_eq_detached d st states2 hst ha]
    | true =>
      rw [verifyStates_eq d st states hst ha, verifyStates_eq d st states2 hst ha]
      rw [verifyLoop_filter pcst verificationExcludedStates states, ← hpc]
      rw [verifyLoop_filter pcst verificationExcludedStates states2]
      rw [hfil]

def c1store : BaseWebStorage :=
  { attached := true, underlying := [("state", jsonStringify (.jstr "abc"))],
    pfx := none }

def c1delegate : AuthenticationDelegate :=
  { respondStrategy := none, identityResolver := none,
    resolverDelegateBound := false, respondFrame := none, _state := [],
    storage := some c1store }

theorem c1_verifyStates_semantics_witness :
    c1delegate.storage = some c1store ∧
    (([("state", JVal.jstr "abc"), ("code", JVal.jstr "xyz")]
        : List (String × JVal)).filter
        (fun kv => !(verificationExcludedStates.contains kv.1))
      = ([("state", JVal.jstr "abc")] : List (String × JVal)).filter
        (fun kv => !(verificationExcludedStates.contains kv.1))) ∧
    c1delegate.verifyStates [("state", .jstr "abc"), ("code", .jstr "xyz")]
      = c1delegate.verifyStates [("state", .jstr "abc")] ∧
    (c1delegate.verifyStates
        [("state", .jstr "abc"), ("code", .jstr "xyz")]).toOption.map Prod.fst
      = some true := by
  have hfil : (([("state", JVal.jstr "abc"), ("code", JVal.jstr "xyz")]
        : List (String × JVal)).filter
        (fun kv => !(verificationExcludedStates.contains kv.1))
      = ([("state", JVal.jstr "abc")] : List (String × JVal)).filter
        (fun kv => !(verificationExcludedStates.contains kv.1))) := rfl
  have h := c1_verifyStates_semantics c1delegate c1store
    [("state", .jstr "abc"), ("code", .jstr "xyz")] [("state", .jstr "abc")]
    rfl hfil
  exact ⟨rfl, hfil, h.2.2, rfl⟩

/-- Claim C4 (code bug): when a project identifier is present in the
captured configuration and the backend verification fails (a reply with
`is_verified` false) or throws (a network failure), the catch block of
`captureData` calls `errorRedirect`, and `errorRedirect` itself throws
the Error `Method to be implemented`.  The failure is therefore not
converted into a report: `captureData` rejects, for every delegate and
registry. -/
theorem c4_captureData_propagates (maps : StaticMaps) (vr : Option Bool)
    (d : AuthenticationDelegate) (st : BaseWebStorage)
    (query : List (String × JVal)) (pv : JVal)
    (hst : d.storage = some st) (ha : st.attached = true)
    (hq : getConfigurationDataWeb3 st = some query)
    (hwk : (st.hasKey "walletconnect").isSome = true)
    (hpid : lookupKV query "project_identifier" = some pv)
    (hvr : vr ≠ some true) :
    AuthenticationDelegate.captureData maps vr d = .error .methodToBeImplemented := by
  rw [AuthenticationDelegate.captureData, hst]
  simp only [hq]
  cases hk : st.hasKey "walletconnect" with
  | none => rw [hk] at hwk; exact absurd hwk (by simp)
  | some wc =>
    simp only []
    cases wc with
    | false =>
      simp only [if_neg (by simp : ¬(false = true)), hpid]
      rw [if_neg hvr]
    | true =>
      rw [removeItem_eq st "walletconnect" ha]
      simp only [if_pos trivial, hpid]
      rw [if_neg hvr]

def c4maps : StaticMaps :=
  { identityResolverMap := fun _ => none, respondStrategyMap := fun _ => none }

def c4store : BaseWebStorage :=
  { attached := true,
    underlying := [("project_identifier", jsonStringify (.jstr "p1"))],
    pfx := none }

def c4delegate : AuthenticationDelegate :=
  { respondStrategy := none, identityResolver := none,
    resolverDelegateBound := false, respondFrame := none, _state := [],
    storage := some c4store }

theorem c4_captureData_propagates_witness :
    c4delegate.storage = some c4store ∧ c4store.attached = true ∧
    getConfigurationDataWeb3 c4store
      = some [("project_identifier", .jstr "p1")] ∧
    (c4store.hasKey "walletconnect").isSome = true ∧
    lookupKV [(("project_identifier" : String), JVal.jstr "p1")]
      "project_identifier" = some (.jstr "p1") ∧
    (some false : Option Bool) ≠ some true ∧
    AuthenticationDelegate.captureData c4maps (some false) c4delegate
      = .error .methodToBeImplemented := by
  have hq : getConfigurationDataWeb3 c4store
      = some [("project_identifier", .jstr "p1")] := rfl
  have hvr : (some false : Option Bool) ≠ some true := by
    intro h
    exact Bool.noConfusion (Option.some.inj h)
  exact ⟨rfl, rfl, hq, rfl, rfl, hvr,
    c4_captureData_propagates c4maps (some false) c4delegate c4store
      [("project_identifier", .jstr "p1")] (.jstr "p1") rfl rfl hq rfl rfl hvr⟩

/- Lemmas for the `init` routing and state law -/

theorem routeKey_state (maps : StaticMaps) (d : AuthenticationDelegate) (kv : String × JVal) :
    (AuthenticationDelegate.routeKey maps d kv)._state = d._state := by
  simp only [AuthenticationDelegate.routeKey]
  repeat' split
  all_goals rfl

theorem routeKey_resolver_ne (maps : StaticMaps) (d : AuthenticationDelegate)
    (kv : String × JVal) (h : ¬ kv.1 = "provider") :
    (AuthenticationDelegate.routeKey maps d kv).identityResolver = d.identityResolver := by
  simp only [AuthenticationDelegate.routeKey, if_neg h]
  repeat' split
  all_goals rfl

theorem routeKey_resolver_bind (maps : StaticMaps) (d : AuthenticationDelegate)
    (kv : String × JVal) (h : kv.1 = "provider") (hr : d.identityResolver = none) :
    (AuthenticationDelegate.routeKey maps d kv).identityResolver =
      maps.identityResolverMap (jsPropertyKey kv.2) := by
  simp only [AuthenticationDelegate.routeKey, if_pos h, hr, Option.isNone_none, if_true]
  split
  all_goals rfl

theorem routeKey_strategy_ne (maps : StaticMaps) (d : AuthenticationDelegate)
    (kv : String × JVal) (h : ¬ kv.1 = "respond_strategy") :
    (AuthenticationDelegate.routeKey maps d kv).respondStrategy = d.respondStrategy := by
  simp only [AuthenticationDelegate.routeKey]
  by_cases h1 : kv.1 = "provider"
  · rw [if_pos h1]
    repeat' split
    all_goals rfl
  · rw [if_neg h1, if_neg h]
    repeat' split
    all_goals rfl

theorem routeKey_frame_ne (maps : StaticMaps) (d : AuthenticationDelegate)
    (kv : String × JVal) (h : ¬ kv.1 = "respond_strategy") :
    (AuthenticationDelegate.routeKey maps d kv).respondFrame = d.respondFrame := by
  simp only [AuthenticationDelegate.routeKey]
  by_cases h1 : kv.1 = "provider"
  · rw [if_pos h1]
    repeat' split
    all_goals rfl
  · rw [if_neg h1, if_neg h]
    repeat' split
    all_goals rfl

theorem routeKey_strategy_eq (maps : StaticMaps) (d : AuthenticationDelegate)
    (kv : String × JVal) (h : kv.1 = "respond_strategy") (hs : d.respondStrategy = none) :
    (AuthenticationDelegate.routeKey maps d kv).respondStrategy = some kv.2 := by
  have h1 : ¬ kv.1 = "provider" := by rw [h]; decide
  simp only [AuthenticationDelegate.routeKey, if_neg h1, if_pos h, hs,
    Option.isNone_none, if_true]
  split
  all_goals rfl

theorem routeKey_frame_eq (maps : StaticMaps) (d : AuthenticationDelegate)
    (kv : String × JVal) (h : kv.1 = "respond_strategy") (hs : d.respondStrategy = none)
    (hf : d.respondFrame = none) :
    (AuthenticationDelegate.routeKey maps d kv).respondFrame =
      maps.respondStrategyMap (jsPropertyKey kv.2) := by
  have h1 : ¬ kv.1 = "provider" := by rw [h]; decide
  simp only [AuthenticationDelegate.routeKey, if_neg h1, if_pos h, hs, hf,
    Option.isNone_none, if_true]

theorem routeKey_storage (maps : StaticMaps) (d : AuthenticationDelegate)
    (kv : String × JVal) (st : BaseWebStorage) (hst : d.storage = some st)
    (ha : st.attached = true) (hp : st.pfx = none) :
    ∃ st1, (AuthenticationDelegate.routeKey maps d kv).storage = some st1 ∧
      st1.attached = true ∧ st1.pfx = none := by
  simp only [AuthenticationDelegate.routeKey]
  by_cases h1 : kv.1 = "provider"
  · rw [if_pos h1]
    refine ⟨st, ?_, ha, hp⟩
    repeat' split
    all_goals exact hst
  · rw [if_neg h1]
    by_cases h2 : kv.1 = "respond_strategy"
    · rw [if_pos h2]
      refine ⟨st, ?_, ha, hp⟩
      repeat' split
      all_goals exact hst
    · rw [if_neg h2, hst]
      simp only [setItem_eq st kv.1 kv.2 ha]
      exact ⟨_, rfl, by rw [withUnder_attached]; exact ha, by rw [withUnder_pfx]; exact hp⟩

/- setStates characterization -/

theorem setStates_ok_fields (d : AuthenticationDelegate) (data : List (String × JVal))
    (e : AuthenticationDelegate) (h : d.setStates data = .ok e) :
    e.respondStrategy = d.respondStrategy ∧ e.identityResolver = d.identityResolver ∧
    e.resolverDelegateBound = d.resolverDelegateBound ∧ e.respondFrame = d.respondFrame ∧
    e._state = d._state := by
  cases hs : d.storage with
  | none =>
    rw [AuthenticationDelegate.setStates, hs] at h
    exact absurd h (by simp)
  | some st =>
    rw [AuthenticationDelegate.setStates, hs] at h
    simp only [] at h
    by_cases hc : (st.isConnected).1 = true
    · rw [if_pos hc] at h
      cases hf : foldSetItems (st.isConnected).2 data with
      | none => rw [hf] at h; exact absurd h (by simp)
      | some st2 =>
        rw [hf] at h
        have he := Except.ok.inj h
        rw [← he]
        exact ⟨rfl, rfl, rfl, rfl, rfl⟩
    · rw [if_neg hc] at h
      have he := Except.ok.inj h
      rw [← he]
      exact ⟨rfl, rfl, rfl, rfl, rfl⟩

/- initStep field lemmas -/

theorem initStep_state (maps : StaticMaps) (d : AuthenticationDelegate)
    (kv : String × JVal) :
    (AuthenticationDelegate.initStep maps d kv)._state = setKV d._state kv.1 kv.2 := by
  rw [AuthenticationDelegate.initStep]
  simp only []
  split
  next d3 heq =>
    have hf := setStates_ok_fields _ _ _ heq
    rw [hf.2.2.2.2, routeKey_state]
  next er heq =>
    rw [routeKey_state]

theorem initStep_resolver_ne (maps : StaticMaps) (d : AuthenticationDelegate)
    (kv : String × JVal) (h : ¬ kv.1 = "provider") :
    (AuthenticationDelegate.initStep maps d kv).identityResolver = d.identityResolver := by
  rw [AuthenticationDelegate.initStep]
  simp only []
  split
  next d3 heq =>
    have hf := setStates_ok_fields _ _ _ heq
    rw [hf.2.1]
    exact routeKey_resolver_ne maps d kv h
  next er heq =>
    exact routeKey_resolver_ne maps d kv h

theorem initStep_resolver_bind (maps : StaticMaps) (d : AuthenticationDelegate)
    (kv : String × JVal) (h : kv.1 = "provider") (hr : d.identityResolver = none) :
    (AuthenticationDelegate.initStep maps d kv).identityResolver =
      maps.identityResolverMap (jsPropertyKey kv.2) := by
  rw [AuthenticationDelegate.initStep]
  simp only []
  split
  next d3 heq =>
    have hf := setStates_ok_fields _ _ _ heq
    rw [hf.2.1]
    exact routeKey_resolver_bind maps d kv h hr
  next er heq =>
    exact routeKey_resolver_bind maps d kv h hr

theorem initStep_strategy_ne (maps : StaticMaps) (d : AuthenticationDelegate)
    (kv : String × JVal) (h : ¬ kv.1 = "respond_strategy") :
    (AuthenticationDelegate.initStep maps d kv).respondStrategy = d.respondStrategy := by
  rw [AuthenticationDelegate.initStep]
  simp only []
  split
  next d3 heq =>
    have hf := setStates_ok_fields _ _ _ heq
    rw [hf.1]
    exact routeKey_strategy_ne maps d kv h
  next er heq =>
    exact routeKey_strategy_ne maps d kv h

theorem initStep_frame_ne (maps : StaticMaps) (d : AuthenticationDelegate)
    (kv : String × JVal) (h : ¬ kv.1 = "respond_strategy") :
    (AuthenticationDelegate.initStep maps d kv).respondFrame = d.respondFrame := by
  rw [AuthenticationDelegate.initStep]
  simp only []
  split
  next d3 heq =>
    have hf := setStates_ok_fields _ _ _ heq
    rw [hf.2.2.2.1]
    exact routeKey_frame_ne maps d kv h
  next er heq =>
    exact routeKey_frame_ne maps d kv h

theorem initStep_strategy_eq (maps : StaticMaps) (d : AuthenticationDelegate)
    (kv : String × JVal) (h : kv.1 = "respond_strategy") (hs : d.respondStrategy = none) :
    (AuthenticationDelegate.initStep maps d kv).respondStrategy = some kv.2 := by
  rw [AuthenticationDelegate.initStep]
  simp only []
  split
  next d3 heq =>
    have hf := setStates_ok_fields _ _ _ heq
    rw [hf.1]
    exact routeKey_strategy_eq maps d kv h hs
  next er heq =>
    exact routeKey_strategy_eq maps d kv h hs

theorem initStep_frame_eq (maps : StaticMaps) (d : AuthenticationDelegate)
    (kv : String × JVal) (h : kv.1 = "respond_strategy") (hs : d.respondStrategy = none)
    (hf0 : d.respondFrame = none) :
    (AuthenticationDelegate.initStep maps d kv).respondFrame =
      maps.respondStrategyMap (jsPropertyKey kv.2) := by
  rw [AuthenticationDelegate.initStep]
  simp only []
  split
  next d3 heq =>
    have hf := setStates_ok_fields _ _ _ heq
    rw [hf.2.2.2.1]
    exact routeKey_frame_eq maps d kv h hs hf0
  next er heq =>
    exact routeKey_frame_eq maps d kv h hs hf0

/- init-level lemmas -/

theorem init_resolver_stable (maps : StaticMaps) (args : List (String × JVal)) :
    ∀ d : AuthenticationDelegate, "provider" ∉ args.map Prod.fst →
      (AuthenticationDelegate.init maps d args).identityResolver = d.identityResolver := by
  induction args with
  | nil => intro d _; rfl
  | cons kv rest ih =>
    intro d hmem
    simp only [List.map_cons, List.mem_cons, not_or] at hmem
    have hinit : AuthenticationDelegate.init maps d (kv :: rest) =
        AuthenticationDelegate.init maps (AuthenticationDelegate.initStep maps d kv) rest := rfl
    rw [hinit, ih _ hmem.2]
    exact initStep_resolver_ne maps d kv (fun he => hmem.1 he.symm)

theorem init_strategy_stable (maps : StaticMaps) (args : List (String × JVal)) :
    ∀ d : AuthenticationDelegate, "respond_strategy" ∉ args.map Prod.fst →
      (AuthenticationDelegate.init maps d args).respondStrategy = d.respondStrategy ∧
      (AuthenticationDelegate.init maps d args).respondFrame = d.respondFrame := by
  induction args with
  | nil => intro d _; exact ⟨rfl, rfl⟩
  | cons kv rest ih =>
    intro d hmem
    simp only [List.map_cons, List.mem_cons, not_or] at hmem
    have hinit : AuthenticationDelegate.init maps d (kv :: rest) =
        AuthenticationDelegate.init maps (AuthenticationDelegate.initStep maps d kv) rest := rfl
    have hne : ¬ kv.1 = "respond_strategy" := fun he => hmem.1 he.symm
    obtain ⟨ih1, ih2⟩ := ih (AuthenticationDelegate.initStep maps d kv) hmem.2
    rw [hinit]
    constructor
    · rw [ih1]
      exact initStep_strategy_ne maps d kv hne
    · rw [ih2]
      exact initStep_frame_ne maps d kv hne

theorem init_resolver_fresh (maps : StaticMaps) (args : List (String × JVal)) :
    ∀ d : AuthenticationDelegate, (args.map Prod.fst).Nodup → d.identityResolver = none →
      (AuthenticationDelegate.init maps d args).identityResolver =
        (lookupKV args "provider").bind
          (fun v => maps.identityResolverMap (jsPropertyKey v)) := by
  induction args with
  | nil =>
    intro d _ hr
    simpa [lookupKV] using hr
  | cons kv rest ih =>
    intro d hnd hr
    obtain ⟨k, v⟩ := kv
    simp only [List.map_cons, List.nodup_cons] at hnd
    have hinit : AuthenticationDelegate.init maps d ((k, v) :: rest) =
        AuthenticationDelegate.init maps (AuthenticationDelegate.initStep maps d (k, v)) rest := rfl
    rw [hinit]
    by_cases hk : k = "provider"
    · subst hk
      rw [init_resolver_stable maps rest _ hnd.1]
      rw [initStep_resolver_bind maps d ("provider", v) rfl hr]
      rw [lookupKV, if_pos rfl]
      rfl
    · rw [ih _ hnd.2 (by rw [initStep_resolver_ne maps d (k, v) hk]; exact hr)]
      rw [lookupKV, if_neg hk]

theorem init_strategy_fresh (maps : StaticMaps) (args : List (String × JVal)) :
    ∀ d : AuthenticationDelegate, (args.map Prod.fst).Nodup →
      d.respondStrategy = none → d.respondFrame = none →
      (AuthenticationDelegate.init maps d args).respondStrategy =
        lookupKV args "respond_strategy" ∧
      (AuthenticationDelegate.init maps d args).respondFrame =
        (lookupKV args "respond_strategy").bind
          (fun v => maps.respondStrategyMap (jsPropertyKey v)) := by
  induction args with
  | nil =>
    intro d _ hs hf
    exact ⟨by simpa [lookupKV] using hs, by simpa [lookupKV] using hf⟩
  | cons kv rest ih =>
    intro d hnd hs hf
    obtain ⟨k, v⟩ := kv
    simp only [List.map_cons, List.nodup_cons] at hnd
    have hinit : AuthenticationDelegate.init maps d ((k, v) :: rest) =
        AuthenticationDelegate.init maps (AuthenticationDelegate.initStep maps d (k, v)) rest := rfl
    rw [hinit]
    by_cases hk : k = "respond_strategy"
    · subst hk
      obtain ⟨hst1, hst2⟩ := init_strategy_stable maps rest
        (AuthenticationDelegate.initStep maps d ("respond_strategy", v)) hnd.1
      constructor
      · rw [hst1, initStep_strategy_eq maps d ("respond_strategy", v) rfl hs,
          lookupKV, if_pos rfl]
      · rw [hst2, initStep_frame_eq maps d ("respond_strategy", v) rfl hs hf,
          lookupKV, if_pos rfl]
        rfl
    · have hs2 : (AuthenticationDelegate.initStep maps d (k, v)).respondStrategy = none := by
        rw [initStep_strategy_ne maps d (k, v) hk]; exact hs
      have hf2 : (AuthenticationDelegate.initStep maps d (k, v)).respondFrame = none := by
        rw [initStep_frame_ne maps d (k, v) hk]; exact hf
      obtain ⟨ih1, ih2⟩ := ih _ hnd.2 hs2 hf2
      constructor
      · rw [ih1, lookupKV, if_neg hk]
      · rw [ih2, lookupKV, if_neg hk]

theorem init_state (maps : StaticMaps) (args : List (String × JVal)) :
    ∀ d : AuthenticationDelegate,
      (AuthenticationDelegate.init maps d args)._state =
        args.foldl (fun m kv => setKV m kv.1 kv.2) d._state := by
  induction args with
  | nil => intro d; rfl
  | cons kv rest ih =>
    intro d
    have hinit : AuthenticationDelegate.init maps d (kv :: rest) =
        AuthenticationDelegate.init maps (AuthenticationDelegate.initStep maps d kv) rest := rfl
    rw [hinit, ih, List.foldl_cons, initStep_state]

theorem init_key_isSome (maps : StaticMaps) (args : List (String × JVal))
    (d : AuthenticationDelegate) (k : String) :
    (lookupKV (AuthenticationDelegate.init maps d args)._state k).isSome = true ↔
      (k ∈ args.map Prod.fst ∨ (lookupKV d._state k).isSome = true) := by
  rw [init_state, lookup_foldl_setKV]
  cases hrev : lookupKV args.reverse k with
  | some v =>
    simp only [Option.isSome_some, true_iff]
    left
    have hm : (lookupKV args.reverse k).isSome = true := by rw [hrev]; rfl
    rw [lookupKV_isSome_iff_mem, List.map_reverse, List.mem_reverse] at hm
    exact hm
  | none =>
    simp only []
    constructor
    · intro h
      exact Or.inr h
    · intro h
      cases h with
      | inl hm =>
        exfalso
        have hsm : (lookupKV args.reverse k).isSome = true := by
          rw [lookupKV_isSome_iff_mem, List.map_reverse, List.mem_reverse]
          exact hm
        rw [hrev] at hsm
        exact absurd hsm (by simp)
      | inr hm => exact hm

/- storage invariant through setStates / initStep / init -/

theorem setStates_ok_of_attached (d : AuthenticationDelegate)
    (data : List (String × JVal)) (st : BaseWebStorage)
    (hst : d.storage = some st) (ha : st.attached = true) (hp : st.pfx = none)
    (hnd : (data.map Prod.fst).Nodup) :
    ∃ st2, d.setStates data = .ok { d with storage := some st2 } ∧
      st2.attached = true ∧ st2.pfx = none ∧
      ∀ k v, lookupKV data k = some v → st2.getItem k = some v := by
  rw [AuthenticationDelegate.setStates, hst]
  simp only [isConnected_eq, ha, if_pos trivial]
  obtain ⟨st2, hfold, ha2, hp2, hlook, _⟩ := foldSetItems_getItem data hnd
    (st.withUnder (eraseKV st.underlying (st.getPrefixedName pingKey)))
    (by rw [withUnder_attached]; exact ha)
    (by rw [withUnder_pfx]; exact hp)
  rw [hfold]
  exact ⟨st2, rfl, ha2, hp2, hlook⟩

def DelegateStoreInv (d : AuthenticationDelegate) : Prop :=
  ∃ st, d.storage = some st ∧ st.attached = true ∧ st.pfx = none ∧
    (d._state.map Prod.fst).Nodup ∧
    ∀ k v, lookupKV d._state k = some v → st.getItem k = some v

theorem initStep_inv (maps : StaticMaps) (d : AuthenticationDelegate)
    (kv : String × JVal) (h : DelegateStoreInv d) :
    DelegateStoreInv (AuthenticationDelegate.initStep maps d kv) := by
  obtain ⟨st, hst, ha, hp, hnd, _⟩ := h
  obtain ⟨st1, hst1, ha1, hp1⟩ := routeKey_storage maps d kv st hst ha hp
  have hnd2 : ((setKV (AuthenticationDelegate.routeKey maps d kv)._state kv.1 kv.2).map
      Prod.fst).Nodup := by
    rw [routeKey_state]
    exact setKV_keys_nodup _ _ _ hnd
  obtain ⟨st2, hss, ha2, hp2, hlook⟩ := setStates_ok_of_attached
    ({ AuthenticationDelegate.routeKey maps d kv with
        _state := setKV (AuthenticationDelegate.routeKey maps d kv)._state kv.1 kv.2 })
    (setKV (AuthenticationDelegate.routeKey maps d kv)._state kv.1 kv.2)
    st1 hst1 ha1 hp1 hnd2
  rw [AuthenticationDelegate.initStep]
  simp only []
  rw [hss]
  exact ⟨st2, rfl, ha2, hp2, hnd2, hlook⟩

theorem init_inv (maps : StaticMaps) (args : List (String × JVal)) :
    ∀ d : AuthenticationDelegate, DelegateStoreInv d →
      DelegateStoreInv (AuthenticationDelegate.init maps d args) := by
  induction args with
  | nil => intro d h; exact h
  | cons kv rest ih =>
    intro d h
    exact ih _ (initStep_inv maps d kv h)

theorem initSeq_inv (maps : StaticMaps) (argss : List (List (String × JVal))) :
    ∀ d : AuthenticationDelegate, DelegateStoreInv d →
      DelegateStoreInv (argss.foldl (AuthenticationDelegate.init maps) d) := by
  induction argss with
  | nil => intro d h; exact h
  | cons a rest ih =>
    intro d h
    exact ih _ (init_inv maps a d h)

theorem initSeq_key_isSome (maps : StaticMaps) (argss : List (List (String × JVal))) :
    ∀ (d : AuthenticationDelegate) (k : String),
      (lookupKV (argss.foldl (AuthenticationDelegate.init maps) d)._state k).isSome = true ↔
        (k ∈ (argss.map (fun a => a.map Prod.fst)).flatten ∨
          (lookupKV d._state k).isSome = true) := by
  induction argss with
  | nil =>
    intro d k
    simp
  | cons a rest ih =>
    intro d k
    rw [List.foldl_cons, ih, init_key_isSome]
    simp only [List.map_cons, List.flatten_cons, List.mem_append]
    tauto



/-- Claim C3 (amended): on a fresh delegate (no resolver, strategy or
frame bound, empty `_state`) whose store is connected and unprefixed, a
single `init(args)` call binds `identityResolver` to the static
`identityResolverMap` entry for the `provider` value when that key is
present (first binding wins: the `switch` only binds when no resolver is
bound yet), sets `respondStrategy` to the `respond_strategy` value and
binds `respondFrame` to the `respondStrategyMap` entry for it; and after
any sequence of `init` calls the key set of `_state` is exactly the
union of the calls' argument keys, every entry being retrievable from
the connected store. -/
theorem c3_init_routing (maps : StaticMaps) (d0 : AuthenticationDelegate)
    (st0 : BaseWebStorage) (args : List (String × JVal))
    (argss : List (List (String × JVal)))
    (hst : d0.storage = some st0) (ha : st0.attached = true) (hp : st0.pfx = none)
    (hres : d0.identityResolver = none) (hstr : d0.respondStrategy = none)
    (hfr : d0.respondFrame = none) (hstate : d0._state = [])
    (hnd : (args.map Prod.fst).Nodup) :
    (AuthenticationDelegate.init maps d0 args).identityResolver =
      (lookupKV args "provider").bind
        (fun v => maps.identityResolverMap (jsPropertyKey v)) ∧
    (AuthenticationDelegate.init maps d0 args).respondStrategy =
      lookupKV args "respond_strategy" ∧
    (AuthenticationDelegate.init maps d0 args).respondFrame =
      (lookupKV args "respond_strategy").bind
        (fun v => maps.respondStrategyMap (jsPropertyKey v)) ∧
    (∀ k, (lookupKV (argss.foldl (AuthenticationDelegate.init maps) d0)._state k).isSome
        = true ↔ k ∈ (argss.map (fun a => a.map Prod.fst)).flatten) ∧
    (∃ stN, (argss.foldl (AuthenticationDelegate.init maps) d0).storage = some stN ∧
      stN.attached = true ∧
      ∀ k v,
        lookupKV (argss.foldl (AuthenticationDelegate.init maps) d0)._state k = some v →
          stN.getItem k = some v) := by
  refine ⟨init_resolver_fresh maps args d0 hnd hres,
    (init_strategy_fresh maps args d0 hnd hstr hfr).1,
    (init_strategy_fresh maps args d0 hnd hstr hfr).2, ?_, ?_⟩
  · intro k
    rw [initSeq_key_isSome, hstate]
    simp [lookupKV]
  · obtain ⟨stN, h1, h2, _h3, _h4, h5⟩ := initSeq_inv maps argss d0
      ⟨st0, hst, ha, hp, by rw [hstate]; exact List.nodup_nil,
        by rw [hstate]; intro k v hkv; simp [lookupKV] at hkv⟩
    exact ⟨stN, h1, h2, h5⟩

/-- A registry with two resolvers, for exercising the `init` routing. -/
def c3maps : StaticMaps :=
  { identityResolverMap := fun k =>
      if k = "a" then some { rid := "ra" }
      else if k = "b" then some { rid := "rb" }
      else none,
    respondStrategyMap := fun k =>
      if k = "web" then some { fid := "webframe" } else none }

def c3store : BaseWebStorage :=
  { attached := true, underlying := [], pfx := none }

def c3delegate : AuthenticationDelegate :=
  { respondStrategy := none, identityResolver := none,
    resolverDelegateBound := false, respondFrame := none, _state := [],
    storage := some c3store }

def c3args : List (String × JVal) :=
  [("provider", .jstr "a"), ("respond_strategy", .jstr "web"),
   ("state", .jstr "xyz")]

def c3argss : List (List (String × JVal)) :=
  [[("state", .jstr "xyz")], [("token", .jstr "t1"), ("provider", .jstr "a")]]

/-- Counterexample to the unconditional routing of claim C3: after
`init(\x7bprovider: "a"\x7d)` a second call `init(\x7bprovider: "b"\x7d)`
does not rebind `identityResolver` to the map entry for `"b"` — the
`switch` case only binds when no resolver is bound yet, so the resolver
from `"a"` is kept. -/
theorem c3_init_rebinding_counterexample :
    (AuthenticationDelegate.init c3maps
        (AuthenticationDelegate.init c3maps c3delegate [("provider", .jstr "a")])
        [("provider", .jstr "b")]).identityResolver = some { rid := "ra" } ∧
    c3maps.identityResolverMap (jsPropertyKey (.jstr "b")) = some { rid := "rb" } ∧
    (AuthenticationDelegate.init c3maps
        (AuthenticationDelegate.init c3maps c3delegate [("provider", .jstr "a")])
        [("provider", .jstr "b")]).identityResolver ≠
      c3maps.identityResolverMap (jsPropertyKey (.jstr "b")) := by
  refine ⟨rfl, rfl, ?_⟩
  intro h
  have h1 : (AuthenticationDelegate.init c3maps
      (AuthenticationDelegate.init c3maps c3delegate [("provider", .jstr "a")])
      [("provider", .jstr "b")]).identityResolver = some { rid := "ra" } := rfl
  rw [h1] at h
  exact absurd h (by decide)

/-- Witness for the amended claim C3 at a concrete registry, delegate
and argument sequence. -/
theorem c3_init_routing_witness :
    c3delegate.storage = some c3store ∧ c3store.attached = true ∧
    c3store.pfx = none ∧ c3delegate.identityResolver = none ∧
    c3delegate.respondStrategy = none ∧ c3delegate.respondFrame = none ∧
    c3delegate._state = [] ∧ ((c3args.map Prod.fst).Nodup) ∧
    ((AuthenticationDelegate.init c3maps c3delegate c3args).identityResolver =
      (lookupKV c3args "provider").bind
        (fun v => c3maps.identityResolverMap (jsPropertyKey v)) ∧
    (AuthenticationDelegate.init c3maps c3delegate c3args).respondStrategy =
      lookupKV c3args "respond_strategy" ∧
    (AuthenticationDelegate.init c3maps c3delegate c3args).respondFrame =
      (lookupKV c3args "respond_strategy").bind
        (fun v => c3maps.respondStrategyMap (jsPropertyKey v)) ∧
    (∀ k, (lookupKV (c3argss.foldl (AuthenticationDelegate.init c3maps) c3delegate)._state
        k).isSome = true ↔ k ∈ (c3argss.map (fun a => a.map Prod.fst)).flatten) ∧
    (∃ stN, (c3argss.foldl (AuthenticationDelegate.init c3maps) c3delegate).storage
        = some stN ∧ stN.attached = true ∧
      ∀ k v,
        lookupKV (c3argss.foldl (AuthenticationDelegate.init c3maps) c3delegate)._state k
          = some v → stN.getItem k = some v)) :=
  ⟨rfl, rfl, rfl, rfl, rfl, rfl, rfl, by decide,
    c3_init_routing c3maps c3delegate c3store c3args c3argss
      rfl rfl rfl rfl rfl rfl rfl (by decide)⟩
